import Mathlib

/-!
# Verification of the ATS resume-checker keyword pipeline

A shallow embedding, in Lean 4, of the keyword-extraction, categorization,
ESCO-validation and scoring code of the `atsresumechecker` repository
(`src/lib/ats/keywords/extractor.ts`, `keyword-categorizer.ts`,
`esco-integration.ts`, `enhanced-extractor.ts`, `types.ts`), together with
theorems settling the specification claims about it.

Modelling conventions:
* JS strings are modelled as `List Char` (`JSStr`).  All strings appearing in
  the relevant code paths are ASCII, where Lean's `Char.toLower`,
  `Char.isAlpha`, … coincide with the JS behaviour.
* JS numbers are modelled by exact fractions (`JSNum`) kept unnormalized so
  that every arithmetic operation is a structural computation the kernel can
  evaluate; `JSNum.val` maps them to `ℚ` for stating order facts.
* JS `Array.prototype.sort` (required by ECMAScript 2019 to be stable) is
  modelled by the stable `List.insertionSort`; `[...new Set(xs)]` by
  `jsSetDedup` (keep first occurrences); `Map` objects by association lists.
* Network calls (`fetch` against the ESCO API) are an oracle parameter;
  `none` models a thrown error or a non-success response (the code returns
  `[]` without caching), `some xs` models a 2xx response whose parsed result
  list is `xs` (a malformed payload parses to `some []` and is cached).
* The external npm libraries (`keyword-extractor`, `fuse.js`, `natural`'s
  `TfIdf`) are oracle parameters as well: the embedding covers the
  repository's own code, which consumes their outputs.
-/

set_option maxHeartbeats 2000000
set_option maxRecDepth 100000

namespace ATS

/-! ## JS numbers: exact unnormalized fractions -/

/-- An exact stand-in for a JS number: an unnormalized fraction with a
positive denominator.  Keeping fractions unnormalized avoids `Nat.gcd`
so that all operations reduce structurally. -/
structure JSNum where
  num : Int
  den : Nat
  den_pos : 0 < den := by decide

def JSNum.ofNat (n : Nat) : JSNum := ⟨n, 1, by decide⟩

def JSNum.add (a b : JSNum) : JSNum :=
  ⟨a.num * b.den + b.num * a.den, a.den * b.den, Nat.mul_pos a.den_pos b.den_pos⟩

def JSNum.sub (a b : JSNum) : JSNum :=
  ⟨a.num * b.den - b.num * a.den, a.den * b.den, Nat.mul_pos a.den_pos b.den_pos⟩

def JSNum.mul (a b : JSNum) : JSNum :=
  ⟨a.num * b.num, a.den * b.den, Nat.mul_pos a.den_pos b.den_pos⟩

/-- Division of a fraction by a positive natural number (the only shape of
division performed in the modelled code: ratios with a positive length or
count as denominator). -/
def JSNum.divNat (a : JSNum) (n : Nat) (h : 0 < n) : JSNum :=
  ⟨a.num, a.den * n, Nat.mul_pos a.den_pos h⟩

/-- `a < b` as JS `<` on numbers (cross multiplication; valid because
denominators are positive). -/
def JSNum.ltb (a b : JSNum) : Bool := a.num * b.den < b.num * a.den

/-- `a <= b` as JS `<=` on numbers. -/
def JSNum.leb (a b : JSNum) : Bool := a.num * b.den ≤ b.num * a.den

/-- JS number equality (`===` on numbers is value equality). -/
def JSNum.eqb (a b : JSNum) : Bool := a.num * b.den = b.num * a.den

/-- JS `Math.max(a, b)` (no NaN in the modelled code paths). -/
def JSNum.jsMax (a b : JSNum) : JSNum := if JSNum.ltb a b then b else a

/-- JS `Math.min(a, b)`. -/
def JSNum.jsMin (a b : JSNum) : JSNum := if JSNum.ltb a b then a else b

/-- The rational value of a `JSNum`. -/
def JSNum.val (a : JSNum) : ℚ := (a.num : ℚ) / (a.den : ℚ)

/-! ## JS string operations over `List Char` -/

/-- JS strings (ASCII fragment), as lists of characters. -/
abbrev JSStr := List Char

/-- `String.prototype.toLowerCase` (ASCII). -/
def jsToLower (s : JSStr) : JSStr := s.map Char.toLower

/-- `String.prototype.trim`. -/
def jsTrim (s : JSStr) : JSStr :=
  ((s.dropWhile Char.isWhitespace).reverse.dropWhile Char.isWhitespace).reverse

/-- `s.includes(sub)`. -/
def jsIncludes (s sub : JSStr) : Bool := decide (sub <:+: s)

/-- `s.endsWith(suffix)` / an anchored-at-end regex fragment. -/
def jsEndsWith (s suffix : JSStr) : Bool := suffix.isSuffixOf s

/-- The UTF-16 code-unit comparison used by the default (argument-less)
`Array.prototype.sort` on strings. -/
def lexLeB : JSStr → JSStr → Bool
  | [], _ => true
  | _ :: _, [] => false
  | a :: as, b :: bs => if a < b then true else if a = b then lexLeB as bs else false

/-- The ordering relation of the default JS string sort. -/
def jsStrLe (a b : JSStr) : Prop := lexLeB a b = true

instance : DecidableRel jsStrLe := fun a b => by unfold jsStrLe; infer_instance

/-- Helper for `jsSetDedup`: drop elements already seen. -/
def jsSetDedupAux (seen : List JSStr) : List JSStr → List JSStr
  | [] => []
  | a :: as =>
      if seen.contains a then jsSetDedupAux seen as
      else a :: jsSetDedupAux (a :: seen) as

/-- `[...new Set(xs)]`: deduplicate keeping the first occurrence of each
element, in order. -/
def jsSetDedup (l : List JSStr) : List JSStr := jsSetDedupAux [] l

/-- The default JS string sort: `xs.sort()`. -/
def jsSortStrings (l : List JSStr) : List JSStr := List.insertionSort jsStrLe l

end ATS

namespace ATS

/-- Shorthand: the character list of a string literal. -/
def str (s : String) : JSStr := s.data

/-- Generic JS `Map.get` over an association list (keys are unique in all
map literals of the source, so first-match lookup is exact). -/
def jsMapGet {α : Type} (m : List (JSStr × α)) (k : JSStr) : Option α :=
  (m.find? (fun p => p.1 == k)).map (·.2)

/-- Generic JS `Map.set` over an association list, modelled as
remove-then-prepend.  `Map.get`, `Map.has` and `Map.delete` — the only ways
the source reads its maps — cannot distinguish this from JS's
replace-in-place/append behaviour; only iteration order could, and none of
the modelled code iterates over a map. -/
def jsMapSet {α : Type} (m : List (JSStr × α)) (k : JSStr) (v : α) : List (JSStr × α) :=
  (k, v) :: m.filter (fun p => p.1 ≠ k)

/-! ## `extractor.ts`: noise patterns and `isValidKeyword` -/

/-- `^\d+$` — pure numbers. -/
def patPureDigits (s : JSStr) : Bool := !s.isEmpty && s.all Char.isDigit

/-- `^\d{1,2}\/\d{1,2}$` — date patterns such as `5/8`, `12/31`.
(`/` is not a digit, so the greedy `\d{1,2}` is exactly the leading digit
run of length 1–2.) -/
def patDate (s : JSStr) : Bool :=
  let d1 := s.takeWhile Char.isDigit
  let rest := s.dropWhile Char.isDigit
  decide (1 ≤ d1.length) && decide (d1.length ≤ 2) &&
    (match rest with
     | '/' :: d2 => !d2.isEmpty && decide (d2.length ≤ 2) && d2.all Char.isDigit
     | _ => false)

/-- `^\d{3,4}-\d{4}$` — phone number patterns such as `456-7890`. -/
def patPhone (s : JSStr) : Bool :=
  let d1 := s.takeWhile Char.isDigit
  let rest := s.dropWhile Char.isDigit
  decide (3 ≤ d1.length) && decide (d1.length ≤ 4) &&
    (match rest with
     | '-' :: d2 => decide (d2.length = 4) && d2.all Char.isDigit
     | _ => false)

/-- `^[a-z]$/i` — single letters. -/
def patSingleLetter (s : JSStr) : Bool :=
  match s with
  | [ch] => ch.isAlpha
  | _ => false

/-- The stop-word alternation of `INVALID_PATTERNS`. -/
def stopWordsExtractor : List JSStr :=
  (["the", "and", "or", "but", "in", "on", "at", "to", "for", "of", "with", "by",
    "is", "are", "was", "were", "be", "been", "have", "has", "had", "do", "does",
    "did", "will", "would", "could", "should", "may", "might", "can", "must",
    "shall"] : List String).map String.data

/-- Question words and demonstratives alternation. -/
def questionWords : List JSStr :=
  (["this", "that", "these", "those", "here", "there", "where", "when", "what",
    "who", "why", "how"] : List String).map String.data

/-- Adverbs alternation. -/
def adverbWords : List JSStr :=
  (["very", "quite", "rather", "really", "just", "only", "also", "even", "still",
    "yet", "already", "now", "then", "soon", "later", "before", "after", "during",
    "while"] : List String).map String.data

/-- `^\w{1,2}$` — very short words. -/
def patShortWord (s : JSStr) : Bool :=
  decide (1 ≤ s.length) && decide (s.length ≤ 2) &&
    s.all (fun ch => ch.isAlphanum || ch = '_')

/-- Month abbreviations alternation. -/
def monthAbbrevs : List JSStr :=
  (["jan", "feb", "mar", "apr", "may", "jun", "jul", "aug", "sep", "oct", "nov",
    "dec"] : List String).map String.data

/-- Day abbreviations alternation. -/
def dayAbbrevs : List JSStr :=
  (["mon", "tue", "wed", "thu", "fri", "sat", "sun"] : List String).map String.data

/-- `INVALID_PATTERNS`, in source order, as predicates on the lowercased
trimmed keyword (every pattern is anchored or an anchored alternation, and
the `/i` flags are absorbed by the lowercasing done by the caller). -/
def INVALID_PATTERNS : List (JSStr → Bool) :=
  [patPureDigits, patDate, patPhone, patSingleLetter,
   (fun s => stopWordsExtractor.contains s),
   (fun s => questionWords.contains s),
   (fun s => adverbWords.contains s),
   patShortWord,
   (fun s => monthAbbrevs.contains s),
   (fun s => dayAbbrevs.contains s)]

/-- `^[^a-zA-Z]*$` — no letters at all. -/
def patNoLetters (s : JSStr) : Bool := s.all (fun ch => !ch.isAlpha)

/-- `^\d+[a-zA-Z]{1,2}$` — ordinal-like tokens such as `123rd`, `1st`. -/
def patDigitsThenLetters (s : JSStr) : Bool :=
  let d := s.takeWhile Char.isDigit
  let rest := s.dropWhile Char.isDigit
  !d.isEmpty && !rest.isEmpty && decide (rest.length ≤ 2) && rest.all Char.isAlpha

/-- `isValidKeyword` from `extractor.ts`. -/
def isValidKeyword (keyword : JSStr) : Bool :=
  let lowerKeyword := jsToLower (jsTrim keyword)
  if INVALID_PATTERNS.any (fun p => p lowerKeyword) then false
  else if decide (lowerKeyword.length < 2) then false
  else if decide (lowerKeyword.length > 25) then false
  else if patNoLetters lowerKeyword then false
  else if patDigitsThenLetters lowerKeyword then false
  else true

/-! ## `extractor.ts`: standardization, compound merging, pipeline -/

/-- `TECH_STANDARDIZATION` map. -/
def TECH_STANDARDIZATION : List (JSStr × JSStr) :=
  ([("js", "JavaScript"), ("javascript", "JavaScript"), ("ecmascript", "JavaScript"),
    ("ts", "TypeScript"), ("typescript", "TypeScript"),
    ("nodejs", "Node.js"), ("node", "Node.js"),
    ("reactjs", "React"), ("react", "React"),
    ("git", "Git"), ("github", "GitHub"), ("gitlab", "GitLab"),
    ("mysql", "MySQL"), ("postgresql", "PostgreSQL"), ("postgres", "PostgreSQL"),
    ("mongodb", "MongoDB"), ("mongo", "MongoDB"),
    ("aws", "AWS"), ("azure", "Microsoft Azure"), ("gcp", "Google Cloud Platform"),
    ("api", "API"), ("rest", "REST API"), ("graphql", "GraphQL"), ("sql", "SQL"),
    ("html", "HTML"), ("css", "CSS"), ("ui", "UI"), ("ux", "UX"), ("qa", "QA"),
    ("ci", "CI"), ("cd", "CD"), ("devops", "DevOps")] : List (String × String)).map
    (fun p => (p.1.data, p.2.data))

/-- `COMPOUND_WORDS` map: compound → parts. -/
def COMPOUND_WORDS : List (JSStr × List JSStr) :=
  ([("full-stack", ["full", "stack"]), ("fullstack", ["full", "stack"]),
    ("front-end", ["front", "end"]), ("frontend", ["front", "end"]),
    ("back-end", ["back", "end"]), ("backend", ["back", "end"]),
    ("machine-learning", ["machine", "learning"]),
    ("artificial-intelligence", ["artificial", "intelligence"]),
    ("data-science", ["data", "science"]),
    ("web-development", ["web", "development"]),
    ("software-engineering", ["software", "engineering"]),
    ("computer-science", ["computer", "science"]),
    ("user-experience", ["user", "experience"]),
    ("user-interface", ["user", "interface"]),
    ("quality-assurance", ["quality", "assurance"]),
    ("project-management", ["project", "management"]),
    ("product-management", ["product", "management"]),
    ("business-intelligence", ["business", "intelligence"]),
    ("cloud-computing", ["cloud", "computing"]),
    ("cyber-security", ["cyber", "security"]),
    ("information-technology", ["information", "technology"]),
    ("node-js", ["node", "js"]), ("react-js", ["react", "js"]),
    ("vue-js", ["vue", "js"]), ("angular-js", ["angular", "js"]),
    ("next-js", ["next", "js"]), ("express-js", ["express", "js"]),
    ("visual-studio", ["visual", "studio"]),
    ("github-actions", ["github", "actions"]),
    ("google-cloud", ["google", "cloud"]),
    ("amazon-web-services", ["amazon", "web", "services"]),
    ("microsoft-azure", ["microsoft", "azure"])] : List (String × List String)).map
    (fun p => (p.1.data, p.2.map String.data))

/-- `standardizeTechNames`. -/
def standardizeTechNames (keywords : List JSStr) : List JSStr :=
  keywords.map (fun keyword => (jsMapGet TECH_STANDARDIZATION (jsToLower keyword)).getD keyword)

/-- One iteration of the `COMPOUND_WORDS` loop in `mergeCompoundWords`:
state is `(result, lowerKeywords)`.  The source splices the same index out
of both arrays (pushed compounds sit at the tail of `result`, beyond every
index that can be returned by `indexOf` on `lowerKeywords`, so the two
arrays stay aligned). -/
def mergeCompoundStep (st : List JSStr × List JSStr) (cw : JSStr × List JSStr) :
    List JSStr × List JSStr :=
  let lowerParts := cw.2.map jsToLower
  if lowerParts.all (fun part => st.2.contains part) then
    let st2 := lowerParts.foldl (fun s part =>
      match s.2.findIdx? (fun x => x == part) with
      | some index => (s.1.eraseIdx index, s.2.eraseIdx index)
      | none => s) st
    (st2.1 ++ [cw.1], st2.2)
  else st

/-- `mergeCompoundWords`. -/
def mergeCompoundWords (keywords : List JSStr) : List JSStr :=
  (COMPOUND_WORDS.foldl mergeCompoundStep (keywords, keywords.map jsToLower)).1

/-- `extractRawKeywords` with the default options (`minLength` 3,
`maxLength` 20), modelled from the point where the external
`keyword-extractor` library has produced the raw token list
(`rawKeywords`); steps 2–6 of the source are the repository's own code.
The surrounding `try`/`catch` is not modelled: the pipeline below is a
total function. -/
def extractRawKeywords (rawKeywords : List JSStr) : List JSStr :=
  let lengthFiltered := rawKeywords.filter (fun keyword =>
    decide (3 ≤ keyword.length) && decide (keyword.length ≤ 20))
  let qualityFiltered := lengthFiltered.filter isValidKeyword
  let standardized := standardizeTechNames qualityFiltered
  let merged := mergeCompoundWords standardized
  let unique := jsSetDedup merged
  jsSortStrings unique

end ATS

namespace ATS

/-! ## `extractor.ts`: `KEYWORD_CATEGORIES` -/

/-- `KEYWORD_CATEGORIES.hardSkills`. -/
def hardSkillsDict : List JSStr :=
  (["javascript", "typescript", "python", "java", "c++", "c#", "php", "ruby", "go",
    "rust", "swift", "kotlin", "scala", "r", "matlab", "sql", "html", "css", "sass",
    "less",
    "react", "vue", "angular", "node.js", "express", "django", "flask", "spring",
    "laravel", "rails", "next.js", "nuxt.js", "svelte", "ember", "backbone",
    "jquery", "bootstrap", "tailwind",
    "mysql", "postgresql", "mongodb", "redis", "elasticsearch", "oracle", "sqlite",
    "cassandra", "dynamodb", "firebase", "supabase",
    "aws", "azure", "gcp", "docker", "kubernetes", "jenkins", "gitlab", "github",
    "terraform", "ansible", "chef", "puppet", "vagrant", "nginx", "apache",
    "git", "svn", "jira", "confluence", "slack", "figma", "sketch", "photoshop",
    "illustrator", "postman", "swagger", "graphql", "rest", "api", "microservices",
    "serverless"] : List String).map String.data

/-- `KEYWORD_CATEGORIES.softSkills`. -/
def softSkillsDict : List JSStr :=
  (["leadership", "communication", "teamwork", "collaboration", "problem-solving",
    "analytical", "creative", "innovative", "adaptable", "flexible", "organized",
    "detail-oriented", "time-management", "multitasking", "self-motivated",
    "proactive", "initiative", "critical-thinking", "decision-making",
    "negotiation", "presentation", "public-speaking", "mentoring", "coaching",
    "training", "customer-service", "client-facing"] : List String).map String.data

/-- `KEYWORD_CATEGORIES.jobTitles`. -/
def jobTitlesDict : List JSStr :=
  (["developer", "engineer", "programmer", "architect", "manager", "director",
    "lead", "senior", "junior", "principal", "staff", "consultant", "analyst",
    "specialist", "coordinator", "administrator", "designer", "researcher",
    "scientist", "technician", "intern", "frontend", "backend", "fullstack",
    "full-stack", "devops", "sre", "qa", "qe", "product-manager",
    "project-manager", "scrum-master", "tech-lead", "team-lead"] :
    List String).map String.data

/-- `KEYWORD_CATEGORIES.certifications`. -/
def certificationsDict : List JSStr :=
  (["aws-certified", "azure-certified", "gcp-certified", "cissp", "cism", "cisa",
    "pmp", "scrum-master", "product-owner", "itil", "six-sigma", "lean", "agile",
    "safe", "comptia", "cisco", "microsoft", "oracle", "salesforce",
    "google-analytics", "hubspot", "facebook-blueprint", "google-ads",
    "linkedin-certified"] : List String).map String.data

/-- `KEYWORD_CATEGORIES.tools`. -/
def toolsDict : List JSStr :=
  (["visual-studio", "vscode", "intellij", "eclipse", "xcode", "android-studio",
    "sublime-text", "atom", "vim", "emacs", "notepad++", "chrome", "firefox",
    "safari", "edge", "postman", "insomnia", "tableau", "power-bi", "excel",
    "google-sheets", "google-analytics", "salesforce", "hubspot", "mailchimp",
    "wordpress", "shopify", "zoom", "teams", "slack", "discord", "notion",
    "trello", "asana"] : List String).map String.data

/-! ## `extractor.ts`: similarity and categorization -/

/-- One inner step of the Levenshtein dynamic program: given the previous
row (`p0 :: p1 :: ps` aligned so `p0 = matrix[j-1][i-1]`, `p1 = matrix[j-1][i]`),
the value `left = matrix[j][i-1]`, and the remaining characters of `str1`,
produce `matrix[j][i], matrix[j][i+1], …` — the row-wise rendering of
`matrix[j][i] = min(matrix[j][i-1]+1, matrix[j-1][i]+1, matrix[j-1][i-1]+indicator)`. -/
def levRowAux (cj : Char) : List Char → List Nat → Nat → List Nat
  | [], _, _ => []
  | a :: as, p0 :: p1 :: ps, left =>
      let indicator := if a = cj then 0 else 1
      let v := min (left + 1) (min (p1 + 1) (p0 + indicator))
      v :: levRowAux cj as (p1 :: ps) v
  | _ :: _, _, _ => []

/-- `levenshteinDistance` from `extractor.ts` (the identical private copy in
`esco-integration.ts` is modelled by this same function). -/
def levenshteinDistance (str1 str2 : JSStr) : Nat :=
  let row0 : List Nat := List.range (str1.length + 1)
  let final := str2.foldl (fun (st : List Nat × Nat) cj =>
      let j := st.2 + 1
      (j :: levRowAux cj str1 st.1 j, j)) (row0, 0)
  (final.1.getLast?).getD 0

/-- `similarity` from `extractor.ts` (= `calculateSimilarity` in
`esco-integration.ts`): `(longer.length - editDistance) / longer.length`. -/
def similarity (str1 str2 : JSStr) : JSNum :=
  let longer := if str1.length > str2.length then str1 else str2
  let shorter := if str1.length > str2.length then str2 else str1
  if h : longer.length = 0 then JSNum.ofNat 1
  else
    JSNum.divNat ⟨(longer.length : Int) - (levenshteinDistance longer shorter : Int), 1, by decide⟩
      longer.length (Nat.pos_of_ne_zero h)

/-- The per-category match test of `categorizeKeywords`:
`keyword.includes(ck) || ck.includes(keyword) || keyword === ck ||
similarity(keyword, ck) > 0.8`. -/
def categoryMatches (keyword : JSStr) (categoryKeywords : List JSStr) : Bool :=
  categoryKeywords.any (fun ck =>
    jsIncludes keyword ck || jsIncludes ck keyword || keyword == ck ||
      JSNum.ltb ⟨8, 10, by decide⟩ (similarity keyword ck))

/-- `isLikelyHardSkill` from `extractor.ts`.  The unanchored test
`/\d+(\.\d+)?$/.test(s)` succeeds exactly when `s` ends in a digit. -/
def isLikelyHardSkill (keyword : JSStr) : Bool :=
  ((["js", "ts", "py", "java", "cpp", "cs", "php", "rb", "go", "rs"] :
      List String).any (fun ext => jsEndsWith keyword ('.' :: ext.data))) ||
  ((["api", "sdk", "cli", "gui", "ui", "ux"] : List String).map
      String.data).contains keyword ||
  (keyword.getLast?.elim false Char.isDigit) ||
  ((["framework", "library", "database", "server", "client"] :
      List String).any (fun suf => jsEndsWith keyword suf.data))

/-- `isLikelySoftSkill` from `extractor.ts`. -/
def isLikelySoftSkill (keyword : JSStr) : Bool :=
  (["management", "leadership", "communication", "collaboration",
    "creative", "innovative", "analytical", "strategic",
    "oriented", "focused", "driven", "minded"] : List String).any
    (fun suf => jsEndsWith keyword suf.data)

/-- `isLikelyJobTitle` from `extractor.ts`. -/
def isLikelyJobTitle (keyword : JSStr) : Bool :=
  ((["developer", "engineer", "manager", "director", "lead", "senior", "junior",
     "analyst", "specialist", "coordinator", "administrator"] : List String).any
    (fun suf => jsEndsWith keyword suf.data)) ||
  ((["head", "chief", "vp", "vice"] : List String).map String.data).contains keyword

/-- `ExtractedKeywords` from `src/lib/ats/types.ts` (the five-key taxonomy). -/
structure ExtractedKeywords where
  hardSkills : List JSStr
  softSkills : List JSStr
  jobTitles : List JSStr
  certifications : List JSStr
  tools : List JSStr
deriving DecidableEq

/-- The empty `ExtractedKeywords` record every categorization starts from. -/
def emptyEK : ExtractedKeywords := ⟨[], [], [], [], []⟩

/-- Normalization in `categorizeKeywords`:
`k.toLowerCase().replace(/[^a-z0-9]/g, '-')`. -/
def normalizeForMatching (k : JSStr) : JSStr :=
  (jsToLower k).map (fun ch =>
    if ('a' ≤ ch && ch ≤ 'z') || ch.isDigit then ch else '-')

/-- The body of the `forEach` in `categorizeKeywords`: dictionary categories
are tried in `Object.entries` order (`hardSkills`, `softSkills`, `jobTitles`,
`certifications`, `tools`), then the pattern-inference fallbacks. -/
def categorizeOne (result : ExtractedKeywords) (keyword originalKeyword : JSStr) :
    ExtractedKeywords :=
  if categoryMatches keyword hardSkillsDict then
    { result with hardSkills := result.hardSkills ++ [originalKeyword] }
  else if categoryMatches keyword softSkillsDict then
    { result with softSkills := result.softSkills ++ [originalKeyword] }
  else if categoryMatches keyword jobTitlesDict then
    { result with jobTitles := result.jobTitles ++ [originalKeyword] }
  else if categoryMatches keyword certificationsDict then
    { result with certifications := result.certifications ++ [originalKeyword] }
  else if categoryMatches keyword toolsDict then
    { result with tools := result.tools ++ [originalKeyword] }
  else if isLikelyHardSkill keyword then
    { result with hardSkills := result.hardSkills ++ [originalKeyword] }
  else if isLikelySoftSkill keyword then
    { result with softSkills := result.softSkills ++ [originalKeyword] }
  else if isLikelyJobTitle keyword then
    { result with jobTitles := result.jobTitles ++ [originalKeyword] }
  else result

/-- The final `[...new Set(...)].sort()` pass applied to every category. -/
def dedupSortEK (r : ExtractedKeywords) : ExtractedKeywords :=
  { hardSkills := jsSortStrings (jsSetDedup r.hardSkills)
    softSkills := jsSortStrings (jsSetDedup r.softSkills)
    jobTitles := jsSortStrings (jsSetDedup r.jobTitles)
    certifications := jsSortStrings (jsSetDedup r.certifications)
    tools := jsSortStrings (jsSetDedup r.tools) }

/-- `categorizeKeywords` from `extractor.ts`. -/
def categorizeKeywords (keywords : List JSStr) : ExtractedKeywords :=
  dedupSortEK ((keywords.map (fun k => (normalizeForMatching k, k))).foldl
    (fun r p => categorizeOne r p.1 p.2) emptyEK)

/-- `calculateTfIdfWeights` from `extractor.ts`.  The `natural` library's
`TfIdf` object (after the `documents.forEach(doc => tfidf.addDocument(doc))`
loop) is abstracted as the oracle `tfidf : keyword → document index → value`;
the repository's own code is the max-fold over document indices. -/
def calculateTfIdfWeights (tfidf : JSStr → Nat → JSNum) (documents : List JSStr)
    (keywords : List JSStr) : List (JSStr × JSNum) :=
  keywords.foldl (fun weights keyword =>
    let maxWeight := (List.range documents.length).foldl
      (fun mw i => JSNum.jsMax mw (tfidf keyword i)) (JSNum.ofNat 0)
    jsMapSet weights keyword maxWeight) []

end ATS

namespace ATS

/-! ## `keyword-categorizer.ts`: `AdvancedKeywordCategorizer` -/

/-- The six category keys of the `ExtractedKeywords` variant declared next to
`keyword-categorizer.ts` (it adds `education` to the five-key taxonomy).
`KeywordDatabase.findBestMatch` can only return keys of
`ENHANCED_KEYWORD_CATEGORIES`, which are exactly these six. -/
inductive Cat6 where
  | hardSkills | softSkills | jobTitles | certifications | education | tools
deriving DecidableEq

/-- The six-key `ExtractedKeywords` record used by the advanced categorizer. -/
structure ExtractedKeywords6 where
  hardSkills : List JSStr
  softSkills : List JSStr
  jobTitles : List JSStr
  certifications : List JSStr
  education : List JSStr
  tools : List JSStr
deriving DecidableEq

def emptyEK6 : ExtractedKeywords6 := ⟨[], [], [], [], [], []⟩

/-- `categorized[category].push(keyword)` for the six-key record. -/
def pushCat6 (r : ExtractedKeywords6) (category : Cat6) (keyword : JSStr) :
    ExtractedKeywords6 :=
  match category with
  | .hardSkills => { r with hardSkills := r.hardSkills ++ [keyword] }
  | .softSkills => { r with softSkills := r.softSkills ++ [keyword] }
  | .jobTitles => { r with jobTitles := r.jobTitles ++ [keyword] }
  | .certifications => { r with certifications := r.certifications ++ [keyword] }
  | .education => { r with education := r.education ++ [keyword] }
  | .tools => { r with tools := r.tools ++ [keyword] }

/-- `KeywordMatch` from the six-key `types.ts`. -/
structure KeywordMatch6 where
  keyword : JSStr
  category : Cat6
  found : Bool
  variations : List JSStr
deriving DecidableEq

/-- `isLikelyHardSkill` (advanced categorizer variant). -/
def advLikelyHardSkill (keyword : JSStr) : Bool :=
  ((["js", "ts", "py", "java", "cpp", "cs", "php", "rb", "go", "rs", "swift",
     "kt"] : List String).any (fun ext => jsEndsWith keyword ('.' :: ext.data))) ||
  ((["api", "sdk", "cli", "gui", "ui", "ux", "rest", "graphql", "grpc"] :
      List String).map String.data).contains keyword ||
  (keyword.getLast?.elim false Char.isDigit) ||
  ((["framework", "library", "database", "server", "client", "protocol",
     "programming", "development", "coding", "scripting"] : List String).any
    (fun suf => jsEndsWith keyword suf.data))

/-- `isLikelySoftSkill` (advanced categorizer variant). -/
def advLikelySoftSkill (keyword : JSStr) : Bool :=
  (["leadership", "management", "communication", "collaboration", "teamwork",
    "creative", "innovative", "analytical", "strategic", "critical",
    "oriented", "focused", "driven", "minded", "thinking",
    "skills", "ability", "capabilities"] : List String).any
    (fun suf => jsEndsWith keyword suf.data)

/-- `isLikelyJobTitle` (advanced categorizer variant). -/
def advLikelyJobTitle (keyword : JSStr) : Bool :=
  ((["developer", "engineer", "manager", "director", "lead", "senior", "junior",
     "principal", "staff", "analyst", "specialist", "coordinator",
     "administrator", "consultant", "architect", "designer", "researcher",
     "scientist", "technician"] : List String).any
    (fun suf => jsEndsWith keyword suf.data)) ||
  ((["head", "chief", "vp", "vice", "cto", "ceo", "cfo"] : List String).map
    String.data).contains keyword

/-- `isLikelyCertification`: suffix alternations plus the prefix alternation
`^(aws|azure|gcp|google|microsoft|oracle|salesforce)`. -/
def advLikelyCertification (keyword : JSStr) : Bool :=
  ((["certified", "certification", "certificate"] : List String).any
    (fun suf => jsEndsWith keyword suf.data)) ||
  ((["aws", "azure", "gcp", "google", "microsoft", "oracle", "salesforce"] :
      List String).any (fun pre => pre.data.isPrefixOf keyword)) ||
  ((["professional", "associate", "expert", "specialist"] : List String).any
    (fun suf => jsEndsWith keyword suf.data))

/-- `isLikelyEducation`. -/
def advLikelyEducation (keyword : JSStr) : Bool :=
  (["degree", "diploma", "bachelor", "master", "phd", "mba", "doctorate",
    "university", "college", "institute", "school", "academy",
    "science", "engineering", "technology", "studies", "arts",
    "bootcamp", "course", "training", "program"] : List String).any
    (fun suf => jsEndsWith keyword suf.data)

/-- `isLikelyTool`. -/
def advLikelyTool (keyword : JSStr) : Bool :=
  ((["studio", "code", "ide", "editor"] : List String).any
    (fun suf => jsEndsWith keyword suf.data)) ||
  ((["visual", "android", "xcode", "intellij", "eclipse"] : List String).any
    (fun pre => pre.data.isPrefixOf keyword)) ||
  ((["software", "application", "platform", "tool"] : List String).any
    (fun suf => jsEndsWith keyword suf.data))

/-- `inferCategory` from `keyword-categorizer.ts`. -/
def inferCategory (keyword : JSStr) : Option Cat6 :=
  let lowerKeyword := jsToLower keyword
  if advLikelyHardSkill lowerKeyword then some .hardSkills
  else if advLikelySoftSkill lowerKeyword then some .softSkills
  else if advLikelyJobTitle lowerKeyword then some .jobTitles
  else if advLikelyCertification lowerKeyword then some .certifications
  else if advLikelyEducation lowerKeyword then some .education
  else if advLikelyTool lowerKeyword then some .tools
  else none

/-- The `[...new Set(...)].sort()` pass over the six-key record. -/
def dedupSortEK6 (r : ExtractedKeywords6) : ExtractedKeywords6 :=
  { hardSkills := jsSortStrings (jsSetDedup r.hardSkills)
    softSkills := jsSortStrings (jsSetDedup r.softSkills)
    jobTitles := jsSortStrings (jsSetDedup r.jobTitles)
    certifications := jsSortStrings (jsSetDedup r.certifications)
    education := jsSortStrings (jsSetDedup r.education)
    tools := jsSortStrings (jsSetDedup r.tools) }

/-- One `forEach` step of `categorizeWithConfidence`.  `findBestMatch`
(Fuse.js fuzzy search, an external library, already thresholded at
score > 0.7 by the source) is the oracle `fbm`; state is
`(categorized, matches, uncategorized)`. -/
def categorizeWithConfidenceStep (fbm : JSStr → Option (Cat6 × JSNum × JSStr))
    (st : ExtractedKeywords6 × List KeywordMatch6 × List JSStr) (keyword : JSStr) :
    ExtractedKeywords6 × List KeywordMatch6 × List JSStr :=
  match fbm keyword with
  | some bestMatch =>
      (pushCat6 st.1 bestMatch.1 keyword,
       st.2.1 ++ [⟨keyword, bestMatch.1, true, [bestMatch.2.2]⟩], st.2.2)
  | none =>
      match inferCategory keyword with
      | some inferredCategory =>
          (pushCat6 st.1 inferredCategory keyword,
           st.2.1 ++ [⟨keyword, inferredCategory, true, []⟩], st.2.2)
      | none =>
          (st.1, st.2.1 ++ [⟨keyword, .hardSkills, false, []⟩], st.2.2 ++ [keyword])

/-- `categorizeWithConfidence` from `keyword-categorizer.ts`: returns
`(categorized, matches, uncategorized)`. -/
def categorizeWithConfidence (fbm : JSStr → Option (Cat6 × JSNum × JSStr))
    (keywords : List JSStr) :
    ExtractedKeywords6 × List KeywordMatch6 × List JSStr :=
  let final := keywords.foldl (categorizeWithConfidenceStep fbm) (emptyEK6, [], [])
  (dedupSortEK6 final.1, final.2.1, final.2.2)

end ATS

namespace ATS

/-! ## `esco-integration.ts`: the ESCO API client

The client's two `Map` caches and its network traffic are made explicit:
every operation takes and returns an `ESCOClientState`, takes the current
`Date.now()` value as `now`, and additionally returns the list of network
requests it issued.  The source keeps search results of both types in one
`Map` whose keys are disjoint by prefix (`skills_…` vs `occupations_…`);
the model splits that map by payload type, keeping the full string keys. -/

/-- `ESCOSkill` (the fields the integration code reads). -/
structure ESCOSkill where
  title : JSStr
  skillType : JSStr
  reuseLevel : JSStr
  alternativeLabels : Option (List JSStr)
deriving DecidableEq

/-- `ESCOOccupation` (the fields the integration code reads). -/
structure ESCOOccupation where
  title : JSStr
  alternativeLabels : Option (List JSStr)
deriving DecidableEq

/-- `ESCOValidatedKeyword`. -/
structure ESCOValidatedKeyword where
  keyword : JSStr
  isValidated : Bool
  escoMatch : Option (ESCOSkill ⊕ ESCOOccupation)
  confidence : JSNum
  category : JSStr
  suggestions : List JSStr

/-- A search-cache entry: `{ data, timestamp }` as written by `setCache`. -/
structure SearchCacheEntry (α : Type) where
  data : α
  timestamp : Nat

/-- A validation-cache entry: the object `{ ...data, timestamp: Date.now() }`
written by `setValidationCache` — the record's own fields spread flat, plus a
`timestamp`, and (crucially) *no* `data` property. -/
structure ValidationCacheEntry where
  keyword : JSStr
  isValidated : Bool
  escoMatch : Option (ESCOSkill ⊕ ESCOOccupation)
  confidence : JSNum
  category : JSStr
  suggestions : List JSStr
  timestamp : Nat

/-- Reading the absent `data` property of a validation-cache entry yields
`undefined` (`getValidationFromCache` line `return cacheEntry.data`). -/
def ValidationCacheEntry.dataProp (_ : ValidationCacheEntry) :
    Option ESCOValidatedKeyword := none

/-- The record contained in a validation-cache entry (what the
backward-compatibility branch `return cached` hands back). -/
def ValidationCacheEntry.record (e : ValidationCacheEntry) : ESCOValidatedKeyword :=
  ⟨e.keyword, e.isValidated, e.escoMatch, e.confidence, e.category, e.suggestions⟩

/-- The mutable state of an `ESCOAPIClient` instance. -/
structure ESCOClientState where
  cacheSkills : List (JSStr × SearchCacheEntry (List ESCOSkill))
  cacheOccupations : List (JSStr × SearchCacheEntry (List ESCOOccupation))
  validationCache : List (JSStr × ValidationCacheEntry)

def emptyClientState : ESCOClientState := ⟨[], [], []⟩

/-- `cacheExpiry = 24 * 60 * 60 * 1000`. -/
def cacheExpiry : Nat := 24 * 60 * 60 * 1000

/-- `validationCacheExpiry = 60 * 60 * 1000`. -/
def validationCacheExpiry : Nat := 60 * 60 * 1000

/-- A network request issued by the client (`fetch` of an ESCO search URL). -/
structure NetRequest where
  qtype : JSStr
  text : JSStr
  limit : Nat
deriving DecidableEq

/-- `Map.delete`. -/
def jsMapDelete {α : Type} (m : List (JSStr × α)) (k : JSStr) : List (JSStr × α) :=
  m.filter (fun p => p.1 ≠ k)

/-- `` `skills_${query}_${limit}_${language}` ``. -/
def skillsCacheKey (query : JSStr) (limit : Nat) (language : JSStr) : JSStr :=
  str "skills_" ++ query ++ str "_" ++ (Nat.repr limit).data ++ str "_" ++ language

/-- `` `occupations_${query}_${limit}_${language}` ``. -/
def occupationsCacheKey (query : JSStr) (limit : Nat) (language : JSStr) : JSStr :=
  str "occupations_" ++ query ++ str "_" ++ (Nat.repr limit).data ++ str "_" ++ language

/-- `getFromCache` (search cache): a fresh entry is returned; an expired or
absent entry means `this.cache.delete(key)` and a miss. -/
def getFromCache {α : Type} (cache : List (JSStr × SearchCacheEntry α))
    (key : JSStr) (now : Nat) : Option α × List (JSStr × SearchCacheEntry α) :=
  match jsMapGet cache key with
  | some cached =>
      if now - cached.timestamp < cacheExpiry then (some cached.data, cache)
      else (none, jsMapDelete cache key)
  | none => (none, jsMapDelete cache key)

/-- The network oracle: `none` models a thrown `fetch` error or a
non-`response.ok` status (the code logs and returns `[]` without caching);
`some xs` models a success whose parsed `_embedded.results` list is `xs`
(a malformed payload parses to `some []`, which *is* cached). -/
def SkillsNet : Type := JSStr → Nat → JSStr → Option (List ESCOSkill)

def OccupationsNet : Type := JSStr → Nat → JSStr → Option (List ESCOOccupation)

/-- `searchSkills`. -/
def searchSkills (net : SkillsNet) (st : ESCOClientState) (now : Nat)
    (query : JSStr) (limit : Nat) (language : JSStr) :
    List ESCOSkill × ESCOClientState × List NetRequest :=
  let cacheKey := skillsCacheKey query limit language
  match getFromCache st.cacheSkills cacheKey now with
  | (some cached, c) => (cached, { st with cacheSkills := c }, [])
  | (none, c) =>
      let st1 := { st with cacheSkills := c }
      let request : NetRequest := ⟨str "skill", query, limit⟩
      match net query limit language with
      | none => ([], st1, [request])
      | some skills =>
          (skills,
           { st1 with cacheSkills := jsMapSet st1.cacheSkills cacheKey ⟨skills, now⟩ },
           [request])

/-- `searchOccupations`. -/
def searchOccupations (net : OccupationsNet) (st : ESCOClientState) (now : Nat)
    (query : JSStr) (limit : Nat) (language : JSStr) :
    List ESCOOccupation × ESCOClientState × List NetRequest :=
  let cacheKey := occupationsCacheKey query limit language
  match getFromCache st.cacheOccupations cacheKey now with
  | (some cached, c) => (cached, { st with cacheOccupations := c }, [])
  | (none, c) =>
      let st1 := { st with cacheOccupations := c }
      let request : NetRequest := ⟨str "occupation", query, limit⟩
      match net query limit language with
      | none => ([], st1, [request])
      | some occupations =>
          (occupations,
           { st1 with cacheOccupations :=
               jsMapSet st1.cacheOccupations cacheKey ⟨occupations, now⟩ },
           [request])

/-- `getValidationFromCache`.  An entry stored by `setValidationCache` always
has a (nonzero) `timestamp`, so the fresh branch returns the absent `data`
property — `undefined`, a miss for the caller; the `!cacheEntry.timestamp`
backward-compatibility branch returns the entry itself. -/
def getValidationFromCache (cache : List (JSStr × ValidationCacheEntry))
    (key : JSStr) (now : Nat) :
    Option ESCOValidatedKeyword × List (JSStr × ValidationCacheEntry) :=
  match jsMapGet cache key with
  | none => (none, cache)
  | some cached =>
      if cached.timestamp ≠ 0 ∧ now - cached.timestamp < validationCacheExpiry then
        (cached.dataProp, cache)
      else if cached.timestamp = 0 then
        (some cached.record, cache)
      else
        (none, jsMapDelete cache key)

/-- `setValidationCache`: store `{ ...data, timestamp: Date.now() }`. -/
def setValidationCache (cache : List (JSStr × ValidationCacheEntry))
    (key : JSStr) (data : ESCOValidatedKeyword) (now : Nat) :
    List (JSStr × ValidationCacheEntry) :=
  jsMapSet cache key
    ⟨data.keyword, data.isValidated, data.escoMatch, data.confidence,
     data.category, data.suggestions, now⟩

/-- The per-label loop of `calculateMatchConfidence` over alternative labels
(each label is tested for both containment directions before the next). -/
def altLabelsPartialLoop (normalizedKeyword : JSStr) : List JSStr → Option JSNum
  | [] => none
  | label :: rest =>
      let normalizedLabel := jsToLower label
      if jsIncludes normalizedLabel normalizedKeyword then some ⟨7, 10, by decide⟩
      else if jsIncludes normalizedKeyword normalizedLabel then some ⟨65, 100, by decide⟩
      else altLabelsPartialLoop normalizedKeyword rest

/-- `calculateMatchConfidence`. -/
def calculateMatchConfidence (keyword title : JSStr)
    (alternativeLabels : Option (List JSStr)) : JSNum :=
  let normalizedTitle := jsToLower title
  let normalizedKeyword := jsToLower keyword
  if normalizedKeyword == normalizedTitle then ⟨1, 1, by decide⟩
  else if (alternativeLabels.getD []).any
      (fun label => normalizedKeyword == jsToLower label) then ⟨95, 100, by decide⟩
  else if jsIncludes normalizedTitle normalizedKeyword then ⟨8, 10, by decide⟩
  else if jsIncludes normalizedKeyword normalizedTitle then ⟨75, 100, by decide⟩
  else
    match altLabelsPartialLoop normalizedKeyword (alternativeLabels.getD []) with
    | some c => c
    | none =>
        let sim := similarity normalizedKeyword normalizedTitle
        if JSNum.ltb ⟨8, 10, by decide⟩ sim then JSNum.mul sim ⟨6, 10, by decide⟩
        else JSNum.ofNat 0

/-- `categorizeESCOSkill`.  The category is the string the JS code returns at
runtime — note it may be `"education"`, which is not a key of the five-key
`ExtractedKeywords` this file's `ESCOValidatedKeyword.category` is typed with. -/
def categorizeESCOSkill (skill : ESCOSkill) : JSStr :=
  let title := jsToLower skill.title
  if skill.skillType == str "knowledge" then
    if jsIncludes title (str "computer") || jsIncludes title (str "software") ||
        jsIncludes title (str "programming") then str "hardSkills"
    else if jsIncludes title (str "education") || jsIncludes title (str "degree") ||
        jsIncludes title (str "qualification") then str "education"
    else str "hardSkills"
  else if skill.skillType == str "attitude" || skill.reuseLevel == str "transversal" then
    str "softSkills"
  else str "hardSkills"

/-- `generateSuggestions`. -/
def generateSuggestions (skills : List ESCOSkill) (occupations : List ESCOOccupation)
    (originalKeyword : JSStr) : List JSStr :=
  let normalizedOriginal := jsToLower originalKeyword
  let afterSkills := skills.foldl (fun suggestions skill =>
    let withTitle :=
      if jsToLower skill.title ≠ normalizedOriginal then suggestions ++ [skill.title]
      else suggestions
    match skill.alternativeLabels with
    | some labels =>
        labels.foldl (fun acc label =>
          if jsToLower label ≠ normalizedOriginal ∧ ¬ acc.contains label then
            acc ++ [label]
          else acc) withTitle
    | none => withTitle) []
  occupations.foldl (fun acc occupation =>
    if jsToLower occupation.title ≠ normalizedOriginal then acc ++ [occupation.title]
    else acc) afterSkills

/-- The `for (const skill of skills)` best-match loop of `validateKeyword`;
the accumulator is `(bestMatch, confidence, category)`. -/
def skillsBestLoop (normalizedKeyword : JSStr) (skills : List ESCOSkill)
    (acc : Option (ESCOSkill ⊕ ESCOOccupation) × JSNum × JSStr) :
    Option (ESCOSkill ⊕ ESCOOccupation) × JSNum × JSStr :=
  skills.foldl (fun acc skill =>
    let matchConfidence :=
      calculateMatchConfidence normalizedKeyword skill.title skill.alternativeLabels
    if JSNum.ltb acc.2.1 matchConfidence then
      (some (Sum.inl skill), matchConfidence, categorizeESCOSkill skill)
    else acc) acc

/-- The `for (const occupation of occupations)` best-match loop. -/
def occupationsBestLoop (normalizedKeyword : JSStr) (occupations : List ESCOOccupation)
    (acc : Option (ESCOSkill ⊕ ESCOOccupation) × JSNum × JSStr) :
    Option (ESCOSkill ⊕ ESCOOccupation) × JSNum × JSStr :=
  occupations.foldl (fun acc occupation =>
    let matchConfidence := calculateMatchConfidence normalizedKeyword
      occupation.title occupation.alternativeLabels
    if JSNum.ltb acc.2.1 matchConfidence then
      (some (Sum.inr occupation), matchConfidence, str "jobTitles")
    else acc) acc

/-- `validateKeyword`: returns the produced record, the updated client state
and the network requests issued during the call.  The two searches run under
`Promise.all`; each one is atomic over the shared caches, so their effects
linearize as skills-then-occupations (they touch disjoint cache keys). -/
def validateKeyword (netS : SkillsNet) (netO : OccupationsNet)
    (st : ESCOClientState) (now : Nat) (keyword : JSStr) :
    ESCOValidatedKeyword × ESCOClientState × List NetRequest :=
  let normalizedKeyword := jsToLower (jsTrim keyword)
  let cacheKey := str "validation_" ++ normalizedKeyword
  match getValidationFromCache st.validationCache cacheKey now with
  | (some cached, vc) => (cached, { st with validationCache := vc }, [])
  | (none, vc) =>
      let st1 := { st with validationCache := vc }
      let (skills, st2, reqs1) := searchSkills netS st1 now normalizedKeyword 3 (str "en")
      let (occupations, st3, reqs2) :=
        searchOccupations netO st2 now normalizedKeyword 3 (str "en")
      let best := occupationsBestLoop normalizedKeyword occupations
        (skillsBestLoop normalizedKeyword skills (none, JSNum.ofNat 0, str "hardSkills"))
      let suggestions := generateSuggestions skills occupations normalizedKeyword
      let result : ESCOValidatedKeyword :=
        { keyword := keyword
          isValidated := JSNum.ltb ⟨7, 10, by decide⟩ best.2.1
          escoMatch := best.1
          confidence := best.2.1
          category := best.2.2
          suggestions := suggestions.take 3 }
      let vc4 := setValidationCache st3.validationCache cacheKey result now
      let st4 := { st3 with validationCache := vc4 }
      (result, st4, reqs1 ++ reqs2)

/-- `validateKeywords` (batch validation).  The batching machinery
(`batchSize = 20`, `maxConcurrentBatches = 10`, 50 ms pacing delays) only
schedules the same per-keyword `validateKeyword` calls and reassembles
`results` in keyword order; the model linearizes them in that order. -/
def validateKeywords (netS : SkillsNet) (netO : OccupationsNet)
    (st : ESCOClientState) (now : Nat) (keywords : List JSStr) :
    List ESCOValidatedKeyword × ESCOClientState × List NetRequest :=
  keywords.foldl (fun acc keyword =>
    let (r, st', reqs) := validateKeyword netS netO acc.2.1 now keyword
    (acc.1 ++ [r], st', acc.2.2 ++ reqs)) ([], st, [])

end ATS

namespace ATS

/-! ## `enhanced-extractor.ts`: prioritization, merging, fallback -/

/-- `^\d{4}$` — year-like tokens. -/
def patYear (s : JSStr) : Bool := decide (s.length = 4) && s.all Char.isDigit

/-- Helper: consume a run of 1–2 digits followed by a `/` or `-` separator. -/
def patFullDateTail (s : JSStr) : Bool :=
  let d2 := s.takeWhile Char.isDigit
  let rest2 := s.dropWhile Char.isDigit
  decide (1 ≤ d2.length) && decide (d2.length ≤ 2) &&
    (match rest2 with
     | c2 :: rest3 =>
         (c2 = '/' || c2 = '-') && !rest3.isEmpty && decide (rest3.length ≤ 4) &&
           decide (2 ≤ rest3.length) && rest3.all Char.isDigit
     | [] => false)

/-- `^\d{1,2}[\/\-]\d{1,2}[\/\-]\d{2,4}$` — full date tokens
(`12/2023`-style comment notwithstanding, the pattern has three groups). -/
def patFullDate (s : JSStr) : Bool :=
  let d1 := s.takeWhile Char.isDigit
  let rest := s.dropWhile Char.isDigit
  decide (1 ≤ d1.length) && decide (d1.length ≤ 2) &&
    (match rest with
     | c1 :: rest1 => (c1 = '/' || c1 = '-') && patFullDateTail rest1
     | [] => false)

/-- `^[\d\-\(\)\+\s]+$` — phone-number-like tokens. -/
def patPhoneChars (s : JSStr) : Bool :=
  !s.isEmpty && s.all (fun ch =>
    ch.isDigit || ch = '-' || ch = '(' || ch = ')' || ch = '+' || ch.isWhitespace)

/-- Character class `[a-zA-Z0-9._%+-]` of the email local part. -/
def emailLocalChar (ch : Char) : Bool :=
  ch.isAlphanum || ch = '.' || ch = '_' || ch = '%' || ch = '+' || ch = '-'

/-- Character class `[a-zA-Z0-9.-]` of the email domain. -/
def emailDomainChar (ch : Char) : Bool := ch.isAlphanum || ch = '.' || ch = '-'

/-- `^[a-zA-Z0-9._%+-]+@[a-zA-Z0-9.-]+\.[a-zA-Z]{2,}$` — email addresses.
A match decomposes the input as `local ++ '@' ++ middle ++ '.' ++ tld`; since
the TLD is purely alphabetic, the separating dot is the *last* dot after the
`@`, which is how the matcher below finds it. -/
def isEmailAddress (s : JSStr) : Bool :=
  let localPart := s.takeWhile (fun ch => ch ≠ '@')
  match s.dropWhile (fun ch => ch ≠ '@') with
  | '@' :: domainPart =>
      let tld := (domainPart.reverse.takeWhile (fun ch => ch ≠ '.')).reverse
      match domainPart.reverse.dropWhile (fun ch => ch ≠ '.') with
      | '.' :: middleRev =>
          let middle := middleRev.reverse
          !localPart.isEmpty && localPart.all emailLocalChar &&
            !middle.isEmpty && middle.all emailDomainChar &&
            decide (2 ≤ tld.length) && tld.all Char.isAlpha
      | _ => false
  | _ => false

/-- `^[ivxlcdm]+$/i` — roman numerals. -/
def patRoman (s : JSStr) : Bool :=
  !s.isEmpty && s.all (fun ch => (['i', 'v', 'x', 'l', 'c', 'd', 'm'] : List Char).contains ch)

/-- `^\d+[a-z]{1,2}$` — ordinal-like tokens (`1st`, `2nd`, …). -/
def patOrdinal (s : JSStr) : Bool :=
  let d := s.takeWhile Char.isDigit
  let rest := s.dropWhile Char.isDigit
  !d.isEmpty && !rest.isEmpty && decide (rest.length ≤ 2) &&
    rest.all (fun ch => 'a' ≤ ch && ch ≤ 'z')

/-- The month-name alternations of `isHighQualityKeyword` (full names). -/
def monthFullNames : List JSStr :=
  (["january", "february", "march", "april", "may", "june", "july", "august",
    "september", "october", "november", "december"] : List String).map String.data

/-- The full day names alternation. -/
def dayFullNames : List JSStr :=
  (["monday", "tuesday", "wednesday", "thursday", "friday", "saturday",
    "sunday"] : List String).map String.data

/-- The stop-word alternation of `isHighQualityKeyword`. -/
def stopWordsEnhanced : List JSStr :=
  (["the", "and", "or", "but", "in", "on", "at", "to", "for", "of", "with", "by",
    "from", "as", "is", "was", "are", "were", "be", "been", "have", "has", "had",
    "do", "does", "did", "will", "would", "could", "should", "may", "might",
    "can", "must"] : List String).map String.data

/-- The `noisePatterns` array of `isHighQualityKeyword`, in source order, as
predicates on the lowercased trimmed keyword. -/
def noisePatterns : List (JSStr → Bool) :=
  [patPureDigits, patYear, patFullDate, patPhoneChars, isEmailAddress,
   (fun s => monthAbbrevs.contains s),
   (fun s => monthFullNames.contains s),
   (fun s => dayAbbrevs.contains s),
   (fun s => dayFullNames.contains s),
   (fun s => (["st", "nd", "rd", "th"] : List String).map String.data |>.contains s),
   (fun s => (["am", "pm"] : List String).map String.data |>.contains s),
   (fun s => (["inc", "llc", "ltd", "corp", "co"] : List String).map String.data |>.contains s),
   (fun s => (["mr", "mrs", "ms", "dr", "prof"] : List String).map String.data |>.contains s),
   patRoman, patOrdinal, patNoLetters,
   (fun s => stopWordsEnhanced.contains s)]

/-- `/^\d/` — starts with a digit. -/
def patDigitStart (s : JSStr) : Bool := (s.headD ' ').isDigit

/-- `/^\d+[a-zA-Z]/` — version-like: a leading digit run followed by a
letter (an unanchored tail may follow).  The maximal leading digit run is
the only candidate for `\d+`, since shorter prefixes are followed by a
digit, not a letter. -/
def patVersionLike (s : JSStr) : Bool :=
  (s.headD ' ').isDigit &&
    (match s.dropWhile Char.isDigit with
     | ch :: _ => ch.isAlpha
     | [] => false)

/-- `isHighQualityKeyword` from `enhanced-extractor.ts`. -/
def isHighQualityKeyword (keyword : JSStr) : Bool :=
  let lowerKeyword := jsToLower (jsTrim keyword)
  if h2 : lowerKeyword.length < 2 then false
  else if decide (lowerKeyword.length > 25) then false
  else if noisePatterns.any (fun p => p lowerKeyword) then false
  else if decide (lowerKeyword.length = 1) then false
  else if patDigitStart lowerKeyword && !patVersionLike lowerKeyword then false
  else
    let hasLetters := lowerKeyword.any Char.isAlpha
    let letterCount := (lowerKeyword.filter Char.isAlpha).length
    have hlen : 0 < lowerKeyword.length := by omega
    hasLetters && JSNum.leb ⟨1, 2, by decide⟩
      (JSNum.divNat ⟨(letterCount : Int), 1, by decide⟩ lowerKeyword.length hlen)

end ATS

namespace ATS

/-- `^[A-Z][a-z]+$` — proper case. -/
def patProperCase (s : JSStr) : Bool :=
  match s with
  | ch :: rest => ch.isUpper && !rest.isEmpty && rest.all Char.isLower
  | [] => false

/-- `^[A-Z]{2,6}$` — acronyms. -/
def patAcronym (s : JSStr) : Bool :=
  decide (2 ≤ s.length) && decide (s.length ≤ 6) && s.all Char.isUpper

/-- The three `+10` technology alternations of `calculateSmartPriority`. -/
def techList1 : List JSStr :=
  (["javascript", "typescript", "python", "java", "react", "angular", "vue",
    "node", "express", "spring", "django", "flask"] : List String).map String.data

def techList2 : List JSStr :=
  (["aws", "azure", "gcp", "docker", "kubernetes", "git", "github", "gitlab",
    "jenkins", "terraform"] : List String).map String.data

def techList3 : List JSStr :=
  (["mysql", "postgresql", "mongodb", "redis", "elasticsearch", "oracle",
    "sqlite"] : List String).map String.data

/-- The `(developer|…)$` professional-role suffix alternation (`+8`). -/
def roleSuffixes : List JSStr :=
  (["developer", "engineer", "architect", "manager", "analyst", "specialist",
    "consultant", "lead", "senior", "junior"] : List String).map String.data

/-- The `(experience|…)$` proficiency suffix alternation (`+6`). -/
def proficiencySuffixes : List JSStr :=
  (["experience", "skilled", "proficient", "expert", "advanced", "intermediate",
    "beginner"] : List String).map String.data

/-- The `-30` stop-word alternation of `calculateSmartPriority`. -/
def priorityStopWords : List JSStr :=
  (["a", "an", "the", "and", "or", "but", "in", "on", "at", "to", "for", "of",
    "with", "by"] : List String).map String.data

/-- `/[^a-zA-Z0-9\-\.\s]/` — contains a special character. -/
def patSpecialChars (s : JSStr) : Bool :=
  s.any (fun ch => !(ch.isAlphanum || ch = '-' || ch = '.' || ch.isWhitespace))

/-- `calculateSmartPriority` from `enhanced-extractor.ts`.  The `score`
accumulation is written as a sequence of conditional `JSNum.add`s in source
order; `alphaRatio` divides by `keyword.length`, which is positive for every
keyword that survives `isHighQualityKeyword` (the zero-length fallback arm
is unreachable in the pipeline). -/
def calculateSmartPriority (keyword : JSStr) (allKeywords : List JSStr) : JSNum :=
  let lowerKeyword := jsToLower keyword
  let length := keyword.length
  let score0 : JSNum := JSNum.ofNat 0
  let score1 :=
    if decide (3 ≤ length) && decide (length ≤ 15) then
      JSNum.add score0 (JSNum.jsMin (JSNum.mul ⟨(length : Int), 1, by decide⟩ ⟨15, 10, by decide⟩) ⟨15, 1, by decide⟩)
    else if decide (15 < length) && decide (length ≤ 20) then
      JSNum.add score0 ⟨8, 1, by decide⟩
    else score0
  let score2 := if patProperCase keyword then JSNum.add score1 ⟨8, 1, by decide⟩ else score1
  let score3 := if patAcronym keyword then JSNum.add score2 ⟨6, 1, by decide⟩ else score2
  let score4 := if keyword.contains '-' then JSNum.add score3 ⟨5, 1, by decide⟩ else score3
  let score5 := if keyword.contains '.' then JSNum.add score4 ⟨4, 1, by decide⟩ else score4
  let score6 := if jsEndsWith lowerKeyword (str "ing") then JSNum.add score5 ⟨3, 1, by decide⟩ else score5
  let score7 := if techList1.contains lowerKeyword then JSNum.add score6 ⟨10, 1, by decide⟩ else score6
  let score8 := if techList2.contains lowerKeyword then JSNum.add score7 ⟨10, 1, by decide⟩ else score7
  let score9 := if techList3.contains lowerKeyword then JSNum.add score8 ⟨10, 1, by decide⟩ else score8
  let score10 :=
    if roleSuffixes.any (fun suf => jsEndsWith lowerKeyword suf) then
      JSNum.add score9 ⟨8, 1, by decide⟩
    else score9
  let score11 :=
    if proficiencySuffixes.any (fun suf => jsEndsWith lowerKeyword suf) then
      JSNum.add score10 ⟨6, 1, by decide⟩
    else score10
  let frequency := (allKeywords.filter (fun k => jsToLower k == lowerKeyword)).length
  let score12 :=
    if decide (1 < frequency) then
      JSNum.add score11 (JSNum.jsMin ⟨(frequency : Int) * 2, 1, by decide⟩ ⟨8, 1, by decide⟩)
    else score11
  let score13 :=
    if h : 0 < length then
      let alphaCount := (keyword.filter Char.isAlpha).length
      JSNum.add score12 (JSNum.mul (JSNum.divNat ⟨(alphaCount : Int), 1, by decide⟩ length h) ⟨5, 1, by decide⟩)
    else JSNum.add score12 (JSNum.ofNat 0)
  let score14 := if patPureDigits keyword then JSNum.sub score13 ⟨50, 1, by decide⟩ else score13
  let score15 := if decide (keyword.length < 3) then JSNum.sub score14 ⟨20, 1, by decide⟩ else score14
  let score16 := if patSpecialChars keyword then JSNum.sub score15 ⟨10, 1, by decide⟩ else score15
  let score17 :=
    if priorityStopWords.contains (jsToLower keyword) then
      JSNum.sub score16 ⟨30, 1, by decide⟩
    else score16
  JSNum.jsMax score17 (JSNum.ofNat 0)

/-- The comparator `(a, b) => b.score - a.score` of
`prioritizeKeywordsForValidation`, as the "may precede" relation of a stable
sort: `a` may come before `b` iff `b.score ≤ a.score`. -/
def scoreDescRel (a b : JSStr × JSNum) : Prop := JSNum.leb b.2 a.2 = true

instance : DecidableRel scoreDescRel := fun a b => by unfold scoreDescRel; infer_instance

/-- Steps 1–2 of `prioritizeKeywordsForValidation`: noise filtering and
scoring. -/
def scoredKeywords (keywords : List JSStr) : List (JSStr × JSNum) :=
  (keywords.filter isHighQualityKeyword).map
    (fun keyword => (keyword, calculateSmartPriority keyword keywords))

/-- `prioritizeKeywordsForValidation`: filter, score, stable-sort by
descending score, take the top `maxCount`, drop the scores. -/
def prioritizeKeywordsForValidation (keywords : List JSStr) (maxCount : Nat) :
    List JSStr :=
  (((scoredKeywords keywords).insertionSort scoreDescRel).take maxCount).map (·.1)

/-- `enhanced[category]` for a dynamic string key: `none` for a key outside
the five-key record (in JS the subsequent `.includes` would then throw a
`TypeError`). -/
def ekGet (ek : ExtractedKeywords) (category : JSStr) : Option (List JSStr) :=
  if category == str "hardSkills" then some ek.hardSkills
  else if category == str "softSkills" then some ek.softSkills
  else if category == str "jobTitles" then some ek.jobTitles
  else if category == str "certifications" then some ek.certifications
  else if category == str "tools" then some ek.tools
  else none

/-- `enhanced[category] = l` for a known five-key category string. -/
def ekSet (ek : ExtractedKeywords) (category : JSStr) (l : List JSStr) :
    ExtractedKeywords :=
  if category == str "hardSkills" then { ek with hardSkills := l }
  else if category == str "softSkills" then { ek with softSkills := l }
  else if category == str "jobTitles" then { ek with jobTitles := l }
  else if category == str "certifications" then { ek with certifications := l }
  else if category == str "tools" then { ek with tools := l }
  else ek

/-- The title of a matched ESCO entity. -/
def escoTitle : ESCOSkill ⊕ ESCOOccupation → JSStr
  | Sum.inl skill => skill.title
  | Sum.inr occupation => occupation.title

/-- One `for (const result of validationResults)` step of
`mergeESCOResults`; `none` models the `TypeError` thrown when
`result.category` is not a key of the five-key record. -/
def mergeOne (confidenceThreshold : JSNum) (enhanced : ExtractedKeywords)
    (result : ESCOValidatedKeyword) : Option ExtractedKeywords :=
  if result.isValidated && JSNum.leb confidenceThreshold result.confidence then
    match ekGet enhanced result.category with
    | none => none
    | some lst =>
        let lst1 := if !lst.contains result.keyword then lst ++ [result.keyword] else lst
        let lst2 :=
          match result.escoMatch with
          | some m =>
              if JSNum.ltb ⟨8, 10, by decide⟩ result.confidence then
                if !lst1.contains (escoTitle m) then lst1 ++ [escoTitle m] else lst1
              else lst1
          | none => lst1
        let lst3 :=
          if JSNum.ltb ⟨9, 10, by decide⟩ result.confidence then
            (result.suggestions.take 2).foldl
              (fun l suggestion => if !l.contains suggestion then l ++ [suggestion] else l)
              lst2
          else lst2
        some (ekSet enhanced result.category lst3)
  else some enhanced

/-- `mergeESCOResults` from `enhanced-extractor.ts`: `none` models the
run throwing (caught by the caller). -/
def mergeESCOResults (basicKeywords : ExtractedKeywords)
    (validationResults : List ESCOValidatedKeyword) (confidenceThreshold : JSNum) :
    Option ExtractedKeywords :=
  (validationResults.foldlM (mergeOne confidenceThreshold) basicKeywords).map dedupSortEK

/-- The step-2/step-3 outcome of `extractAndValidate`: given the basic
keywords and the outcome of the `try` block (`.error` models
`validateKeywords` rejecting, and a `none` from `mergeESCOResults` models it
throwing — both land in the same `catch`), produce
`(validatedKeywords, validationResults)`.  In the failure cases the code
falls back to `validatedKeywords = { ...basicKeywords }` and
`validationResults = []`. -/
def extractAndValidateResult (basicKeywords : ExtractedKeywords)
    (validationOutcome : Except Unit (List ESCOValidatedKeyword))
    (escoConfidenceThreshold : JSNum) :
    ExtractedKeywords × List ESCOValidatedKeyword :=
  match validationOutcome with
  | .error _ => (basicKeywords, [])
  | .ok validationResults =>
      match mergeESCOResults basicKeywords validationResults escoConfidenceThreshold with
      | some merged => (merged, validationResults)
      | none => (basicKeywords, [])

/-! ## `types.ts`: `SCORE_LEVELS` -/

/-- One entry of `SCORE_LEVELS`. -/
structure ScoreLevel where
  min : Nat
  max : Nat
  label : String
  color : String
deriving DecidableEq

/-- `SCORE_LEVELS` from `types.ts`, in declaration order. -/
def SCORE_LEVELS : List ScoreLevel :=
  [⟨85, 100, "Excellent", "green"⟩,
   ⟨70, 84, "Good", "blue"⟩,
   ⟨55, 69, "Fair", "yellow"⟩,
   ⟨40, 54, "Poor", "orange"⟩,
   ⟨0, 39, "Very Poor", "red"⟩]

end ATS

namespace ATS

/-! ## Concrete fixtures used by the claim counterexamples -/

/-- An ESCO skill whose title is exactly `java`. -/
def javaSkill : ESCOSkill :=
  ⟨str "java", str "skill/competence", str "sector-specific", none⟩

/-- A skills network that answers the query `java` with `javaSkill` and
fails every other request. -/
def netSkillsJava : SkillsNet := fun query _ _ =>
  if query == str "java" then some [javaSkill] else none

/-- An occupations network that always answers with an empty (but
successful, hence cached) result list. -/
def netOccupationsEmpty : OccupationsNet := fun _ _ _ => some []

/-- First call of the C1 scenario: validate `"Java"` at `t = 1000` ms. -/
def c1run1 : ESCOValidatedKeyword × ESCOClientState × List NetRequest :=
  validateKeyword netSkillsJava netOccupationsEmpty emptyClientState 1000 (str "Java")

/-- Second call: validate `"JAVA"` (same normalized term) 60 s later,
well inside the 1 h validation-cache TTL. -/
def c1run2 : ESCOValidatedKeyword × ESCOClientState × List NetRequest :=
  validateKeyword netSkillsJava netOccupationsEmpty c1run1.2.1 61000 (str "JAVA")

/-- Third call: validate `"java"` 2 h after the first call — the 1 h
validation TTL has expired, the 24 h search TTL has not. -/
def c1run3 : ESCOValidatedKeyword × ESCOClientState × List NetRequest :=
  validateKeyword netSkillsJava netOccupationsEmpty c1run2.2.1
    (1000 + 2 * validationCacheExpiry) (str "java")

/-- An ESCO skill of type `knowledge` whose title contains `education`. -/
def educationSkill : ESCOSkill :=
  ⟨str "education", str "knowledge", str "cross-sector", none⟩

/-- A skills network answering every query with `educationSkill`. -/
def netSkillsEducation : SkillsNet := fun _ _ _ => some [educationSkill]

/-- The C4 scenario: validate the term `education` against a knowledge
skill titled `education`. -/
def c4run : ESCOValidatedKeyword × ESCOClientState × List NetRequest :=
  validateKeyword netSkillsEducation netOccupationsEmpty emptyClientState 1000 (str "education")

/-- The five category keys of `ExtractedKeywords` in `types.ts`. -/
def fiveCategoryKeys : List JSStr :=
  (["hardSkills", "softSkills", "jobTitles", "certifications", "tools"] :
    List String).map String.data

/-- An ESCO skill whose title strictly contains the keyword
`javascript`, producing the 0.8 partial-containment confidence. -/
def javascriptFrameworkSkill : ESCOSkill :=
  ⟨str "javascript framework", str "skill/competence", str "sector-specific", none⟩

/-- A skills network answering every query with `javascriptFrameworkSkill`. -/
def netSkillsJsFramework : SkillsNet := fun _ _ _ => some [javascriptFrameworkSkill]

/-- The C5 scenario: validate `javascript`; the best match confidence is
0.8 (partial title containment). -/
def c5run : ESCOValidatedKeyword × ESCOClientState × List NetRequest :=
  validateKeyword netSkillsJsFramework netOccupationsEmpty emptyClientState 1000 (str "javascript")

end ATS

namespace ATS

/-- Both search-cache keys of the normalized form of `k` are absent.  (Used
to state that no earlier successful search for that term is cached.) -/
def searchMissInv (k : JSStr) (st : ESCOClientState) : Prop :=
  jsMapGet st.cacheSkills (skillsCacheKey (jsToLower (jsTrim k)) 3 (str "en")) = none ∧
  jsMapGet st.cacheOccupations
    (occupationsCacheKey (jsToLower (jsTrim k)) 3 (str "en")) = none

/-- Every validation-cache entry carries a nonzero timestamp — true of every
state reachable from a fresh client, since `setValidationCache` stamps
entries with `Date.now()` (never 0 at runtime). -/
def validationWF (st : ESCOClientState) : Prop :=
  ∀ e ∈ st.validationCache, e.2.timestamp ≠ 0

/-- The relation `scoreDescRel` is total (JS comparators must induce a
consistent total preorder; `b.score - a.score` does). -/
instance : IsTotal (JSStr × JSNum) scoreDescRel where
  total a b := by
    simp only [scoreDescRel, JSNum.leb, decide_eq_true_eq]
    omega

/-- The relation `scoreDescRel` is transitive. -/
instance : IsTrans (JSStr × JSNum) scoreDescRel where
  trans a b c hab hbc := by
    simp only [scoreDescRel, JSNum.leb, decide_eq_true_eq] at *
    have ha := a.2.den_pos
    have hb := b.2.den_pos
    have hc := c.2.den_pos
    nlinarith [mul_le_mul_of_nonneg_right hab (by positivity : (0:ℤ) ≤ (c.2.den : ℤ)),
      mul_le_mul_of_nonneg_right hbc (by positivity : (0:ℤ) ≤ (a.2.den : ℤ))]

end ATS

namespace ATS

/-! ## Helper lemmas: `JSNum` valuation, maps, dedup, sort -/

theorem JSNum.den_cast_pos (a : JSNum) : (0 : ℚ) < (a.den : ℚ) := by
  exact_mod_cast a.den_pos

theorem JSNum.ltb_iff_val (a b : JSNum) : JSNum.ltb a b = true ↔ a.val < b.val := by
  simp only [JSNum.ltb, JSNum.val, decide_eq_true_eq]
  rw [div_lt_div_iff a.den_cast_pos b.den_cast_pos]
  exact_mod_cast Iff.rfl

theorem JSNum.leb_iff_val (a b : JSNum) : JSNum.leb a b = true ↔ a.val ≤ b.val := by
  simp only [JSNum.leb, JSNum.val, decide_eq_true_eq]
  rw [div_le_div_iff a.den_cast_pos b.den_cast_pos]
  exact_mod_cast Iff.rfl

theorem JSNum.val_jsMax (a b : JSNum) : (JSNum.jsMax a b).val = max a.val b.val := by
  unfold JSNum.jsMax
  by_cases h : JSNum.ltb a b = true
  · rw [if_pos h, max_eq_right (le_of_lt ((JSNum.ltb_iff_val a b).mp h))]
  · rw [if_neg h, max_eq_left]
    exact le_of_not_lt ((JSNum.ltb_iff_val a b).not.mp (by simpa using h))

theorem JSNum.val_ofNat (n : Nat) : (JSNum.ofNat n).val = (n : ℚ) := by
  simp [JSNum.ofNat, JSNum.val]

/-- `find?` ignores a filter that only removes elements the search predicate
rejects. -/
theorem find?_filter_of_imp {α : Type} (p q : α → Bool) (l : List α)
    (h : ∀ x, p x = true → q x = true) :
    (l.filter q).find? p = l.find? p := by
  induction l with
  | nil => rfl
  | cons x l ih =>
      by_cases hq : q x = true
      · by_cases hp : p x = true
        · simp [List.filter_cons, hq, List.find?, hp]
        · simp only [List.filter_cons, hq, if_true, List.find?, hp]
          simpa [List.find?, hp] using ih
      · have hp : p x = false := by
          rcases hpx : p x with _ | _
          · rfl
          · exact absurd (h x hpx) hq
        simp only [List.filter_cons, hq, Bool.false_eq_true, if_false]
        rw [ih]
        simp [List.find?, hp]

theorem jsMapGet_jsMapSet_self {α : Type} (m : List (JSStr × α)) (k : JSStr) (v : α) :
    jsMapGet (jsMapSet m k v) k = some v := by
  simp [jsMapGet, jsMapSet, List.find?]

theorem jsMapGet_jsMapSet_ne {α : Type} (m : List (JSStr × α)) (k k' : JSStr) (v : α)
    (h : k' ≠ k) : jsMapGet (jsMapSet m k v) k' = jsMapGet m k' := by
  simp only [jsMapGet, jsMapSet, List.find?, show (k == k') = false by simpa using h.symm]
  rw [find?_filter_of_imp]
  intro x hx
  have : x.1 = k' := by simpa using hx
  simp [this, h]

theorem mem_jsMapSet {α : Type} {m : List (JSStr × α)} {k : JSStr} {v : α} {p : JSStr × α}
    (hp : p ∈ jsMapSet m k v) : p = (k, v) ∨ p ∈ m := by
  simp only [jsMapSet, List.mem_cons] at hp
  rcases hp with hp | hp
  · exact Or.inl hp
  · exact Or.inr (List.mem_filter.mp hp).1

theorem mem_jsMapDelete {α : Type} {m : List (JSStr × α)} {k : JSStr} {p : JSStr × α}
    (hp : p ∈ jsMapDelete m k) : p ∈ m :=
  (List.mem_filter.mp hp).1

theorem jsMapGet_eq_none_iff {α : Type} {m : List (JSStr × α)} {k : JSStr} :
    jsMapGet m k = none ↔ ∀ p ∈ m, p.1 ≠ k := by
  unfold jsMapGet
  constructor
  · intro h p hp hk
    rcases hf : List.find? (fun q => q.1 == k) m with _ | q
    · rw [List.find?_eq_none] at hf
      exact hf p hp (by simpa using hk)
    · rw [hf] at h
      simp at h
  · intro h
    rcases hf : List.find? (fun q => q.1 == k) m with _ | q
    · rw [hf]; rfl
    · exact absurd (by simpa using List.find?_some hf)
        (h q (List.mem_of_find?_eq_some hf))

theorem jsMapGet_jsMapDelete_of_none {α : Type} {m : List (JSStr × α)} {k x : JSStr}
    (h : jsMapGet m k = none) : jsMapGet (jsMapDelete m x) k = none := by
  rw [jsMapGet_eq_none_iff] at h ⊢
  exact fun p hp => h p (mem_jsMapDelete hp)

theorem jsMapGet_jsMapSet_none {α : Type} {m : List (JSStr × α)} {k k' : JSStr} {v : α}
    (h : jsMapGet m k' = none) (hne : k' ≠ k) :
    jsMapGet (jsMapSet m k v) k' = none := by
  rw [jsMapGet_jsMapSet_ne m k k' v hne]
  exact h

/-! ### Dedup and sort lemmas -/

theorem mem_of_mem_jsSetDedupAux {seen l : List JSStr} {x : JSStr}
    (hx : x ∈ jsSetDedupAux seen l) : x ∈ l := by
  induction l generalizing seen with
  | nil => simpa [jsSetDedupAux] using hx
  | cons a l ih =>
      simp only [jsSetDedupAux] at hx
      by_cases hs : seen.contains a
      · rw [if_pos hs] at hx
        exact List.mem_cons_of_mem _ (ih hx)
      · rw [if_neg hs] at hx
        rcases hx with _ | hx
        · exact List.mem_cons_self _ _
        · exact List.mem_cons_of_mem _ (ih (by assumption))

theorem not_mem_seen_of_mem_jsSetDedupAux {seen l : List JSStr} {x : JSStr}
    (hx : x ∈ jsSetDedupAux seen l) : x ∉ seen := by
  induction l generalizing seen with
  | nil => simp [jsSetDedupAux] at hx
  | cons a l ih =>
      simp only [jsSetDedupAux] at hx
      by_cases hs : seen.contains a
      · rw [if_pos hs] at hx
        exact ih hx
      · rw [if_neg hs] at hx
        rcases hx with _ | hx
        · simpa using hs
        · have := ih (by assumption : x ∈ jsSetDedupAux (a :: seen) l)
          intro hmem
          exact this (List.mem_cons_of_mem _ hmem)

theorem nodup_jsSetDedupAux (seen l : List JSStr) : (jsSetDedupAux seen l).Nodup := by
  induction l generalizing seen with
  | nil => simp [jsSetDedupAux]
  | cons a l ih =>
      simp only [jsSetDedupAux]
      by_cases hs : seen.contains a
      · rw [if_pos hs]; exact ih seen
      · rw [if_neg hs]
        refine List.Nodup.cons ?_ (ih (a :: seen))
        intro hmem
        exact not_mem_seen_of_mem_jsSetDedupAux hmem (List.mem_cons_self a seen)

theorem mem_of_mem_jsSetDedup {l : List JSStr} {x : JSStr} (hx : x ∈ jsSetDedup l) :
    x ∈ l := mem_of_mem_jsSetDedupAux hx

theorem nodup_jsSetDedup (l : List JSStr) : (jsSetDedup l).Nodup :=
  nodup_jsSetDedupAux [] l

theorem mem_of_mem_jsSortStrings {l : List JSStr} {x : JSStr}
    (hx : x ∈ jsSortStrings l) : x ∈ l :=
  (List.mem_insertionSort jsStrLe).mp hx

theorem nodup_jsSortStrings_jsSetDedup (l : List JSStr) :
    (jsSortStrings (jsSetDedup l)).Nodup :=
  (nodup_jsSetDedup l).perm (List.perm_insertionSort jsStrLe (jsSetDedup l)).symm

end ATS


namespace ATS

/-- Stability of the modelled JS sort, as filter-invariance: filtering the
sorted list by a class of mutually tied elements returns those elements in
their original relative order. -/
theorem filter_insertionSort_eq {α : Type} (r : α → α → Prop) [DecidableRel r]
    [IsTotal α r] [IsTrans α r] (p : α → Bool) (l : List α)
    (hp : ∀ a b, p a = true → p b = true → r a b) :
    (l.insertionSort r).filter p = l.filter p := by
  have hpair : (l.filter p).Pairwise r :=
    List.pairwise_of_forall_mem_list (fun a ha b hb =>
      hp a b (List.mem_filter.mp ha).2 (List.mem_filter.mp hb).2)
  have hsub : List.Sublist (List.filter p l) (l.insertionSort r) :=
    List.sublist_insertionSort hpair (List.filter_sublist l)
  have h2 : List.Sublist (List.filter p l) ((l.insertionSort r).filter p) := by
    have h1 : List.filter p l = (List.filter p l).filter p := by
      simp [List.filter_filter]
    rw [h1]
    exact List.Sublist.filter p hsub
  have hperm : ((l.insertionSort r).filter p).Perm (l.filter p) :=
    (List.perm_insertionSort r l).filter p
  exact (h2.eq_of_length hperm.length_eq.symm).symm

/-! ### ESCO client state lemmas -/

theorem skillsCacheKey_inj {q1 q2 : JSStr} {lim : Nat} {lang : JSStr}
    (h : skillsCacheKey q1 lim lang = skillsCacheKey q2 lim lang) : q1 = q2 := by
  unfold skillsCacheKey at h
  simp only [List.append_assoc] at h
  exact List.append_cancel_right (List.append_cancel_left h)

theorem occupationsCacheKey_inj {q1 q2 : JSStr} {lim : Nat} {lang : JSStr}
    (h : occupationsCacheKey q1 lim lang = occupationsCacheKey q2 lim lang) : q1 = q2 := by
  unfold occupationsCacheKey at h
  simp only [List.append_assoc] at h
  exact List.append_cancel_right (List.append_cancel_left h)

theorem jsMapGet_none_of_forall_mem {α : Type} {m m' : List (JSStr × α)} {k : JSStr}
    (hsub : ∀ p ∈ m', p ∈ m) (h : jsMapGet m k = none) : jsMapGet m' k = none := by
  rw [jsMapGet_eq_none_iff] at h ⊢
  exact fun p hp => h p (hsub p hp)

theorem mem_getFromCache_snd {α : Type} (cache : List (JSStr × SearchCacheEntry α))
    (key : JSStr) (now : Nat) {e} (he : e ∈ (getFromCache cache key now).2) : e ∈ cache := by
  unfold getFromCache at he
  split at he
  · split at he
    · exact he
    · exact mem_jsMapDelete he
  · exact mem_jsMapDelete he

/-- `searchSkills` leaves the occupations cache and the validation cache
untouched, whatever path it takes. -/
theorem searchSkills_other_caches (net : SkillsNet) (st : ESCOClientState) (now : Nat)
    (q : JSStr) (lim : Nat) (lang : JSStr) :
    (searchSkills net st now q lim lang).2.1.cacheOccupations = st.cacheOccupations ∧
    (searchSkills net st now q lim lang).2.1.validationCache = st.validationCache := by
  unfold searchSkills
  rcases hgc : getFromCache st.cacheSkills (skillsCacheKey q lim lang) now with ⟨_ | data, c⟩ <;>
    rcases hnet : net q lim lang with _ | skills <;>
    simp only [hgc, hnet] <;> exact ⟨trivial, trivial⟩

/-- `searchOccupations` leaves the skills cache and the validation cache
untouched. -/
theorem searchOccupations_other_caches (net : OccupationsNet) (st : ESCOClientState)
    (now : Nat) (q : JSStr) (lim : Nat) (lang : JSStr) :
    (searchOccupations net st now q lim lang).2.1.cacheSkills = st.cacheSkills ∧
    (searchOccupations net st now q lim lang).2.1.validationCache = st.validationCache := by
  unfold searchOccupations
  rcases hgc : getFromCache st.cacheOccupations (occupationsCacheKey q lim lang) now with
    ⟨_ | data, c⟩ <;>
    rcases hnet : net q lim lang with _ | occupations <;>
    simp only [hgc, hnet] <;> exact ⟨trivial, trivial⟩

/-- A skills-cache key that was absent stays absent through `searchSkills`,
provided that if it is the very key being searched, the network fails for
that query (so nothing is written under it). -/
theorem searchSkills_preserves_none (net : SkillsNet) (st : ESCOClientState) (now : Nat)
    (q : JSStr) (lim : Nat) (lang : JSStr) (key : JSStr)
    (hkey : jsMapGet st.cacheSkills key = none)
    (hcase : key = skillsCacheKey q lim lang → net q lim lang = none) :
    jsMapGet (searchSkills net st now q lim lang).2.1.cacheSkills key = none := by
  unfold searchSkills
  rcases hgc : getFromCache st.cacheSkills (skillsCacheKey q lim lang) now with ⟨fst, c⟩
  have hc : ∀ p ∈ c, p ∈ st.cacheSkills := by
    intro p hp
    refine mem_getFromCache_snd st.cacheSkills (skillsCacheKey q lim lang) now ?_
    rw [hgc]
    exact hp
  have hkc : jsMapGet c key = none := jsMapGet_none_of_forall_mem hc hkey
  rcases fst with _ | data
  · rcases hnet : net q lim lang with _ | skills
    · simp only [hgc, hnet]
      exact hkc
    · by_cases hk : key = skillsCacheKey q lim lang
      · rw [hcase hk] at hnet
        cases hnet
      · simp only [hgc, hnet]
        exact jsMapGet_jsMapSet_none hkc hk
  · simp only [hgc]
    exact hkc

/-- The occupations-cache analogue of `searchSkills_preserves_none`. -/
theorem searchOccupations_preserves_none (net : OccupationsNet) (st : ESCOClientState)
    (now : Nat) (q : JSStr) (lim : Nat) (lang : JSStr) (key : JSStr)
    (hkey : jsMapGet st.cacheOccupations key = none)
    (hcase : key = occupationsCacheKey q lim lang → net q lim lang = none) :
    jsMapGet (searchOccupations net st now q lim lang).2.1.cacheOccupations key = none := by
  unfold searchOccupations
  rcases hgc : getFromCache st.cacheOccupations (occupationsCacheKey q lim lang) now with
    ⟨fst, c⟩
  have hc : ∀ p ∈ c, p ∈ st.cacheOccupations := by
    intro p hp
    refine mem_getFromCache_snd st.cacheOccupations (occupationsCacheKey q lim lang) now ?_
    rw [hgc]
    exact hp
  have hkc : jsMapGet c key = none := jsMapGet_none_of_forall_mem hc hkey
  rcases fst with _ | data
  · rcases hnet : net q lim lang with _ | occupations
    · simp only [hgc, hnet]
      exact hkc
    · by_cases hk : key = occupationsCacheKey q lim lang
      · rw [hcase hk] at hnet
        cases hnet
      · simp only [hgc, hnet]
        exact jsMapGet_jsMapSet_none hkc hk
  · simp only [hgc]
    exact hkc

end ATS

namespace ATS

/-- Under a well-formed validation cache (all timestamps nonzero), a cache
read never produces a record: the fresh branch returns the absent `data`
property and the backward-compatibility branch is unreachable.  This is the
formal face of the `setValidationCache`/`getValidationFromCache` shape
mismatch. -/
theorem getValidationFromCache_wf (cache : List (JSStr × ValidationCacheEntry))
    (key : JSStr) (now : Nat) (h : ∀ e ∈ cache, e.2.timestamp ≠ 0) :
    (getValidationFromCache cache key now).1 = none := by
  rcases hf : jsMapGet cache key with _ | cached
  · simp only [getValidationFromCache, hf]
  · have hts : cached.timestamp ≠ 0 := by
      unfold jsMapGet at hf
      rcases hfind : List.find? (fun q => q.1 == key) cache with _ | p
      · rw [hfind] at hf
        cases hf
      · rw [hfind] at hf
        simp only [Option.map_some'] at hf
        cases hf
        exact h p (List.mem_of_find?_eq_some hfind)
    by_cases hfresh : now - cached.timestamp < validationCacheExpiry
    · simp [getValidationFromCache, hf, hts, hfresh, ValidationCacheEntry.dataProp]
    · simp [getValidationFromCache, hf, hts, hfresh]

theorem mem_getValidationFromCache_snd {cache : List (JSStr × ValidationCacheEntry)}
    {key : JSStr} {now : Nat} {e}
    (he : e ∈ (getValidationFromCache cache key now).2) : e ∈ cache := by
  unfold getValidationFromCache at he
  split at he
  · exact he
  · split at he
    · exact he
    · split at he
      · exact he
      · exact mem_jsMapDelete he

/-- Under a well-formed validation cache, `validateKeyword` always takes the
fresh-computation path; this lemma rewrites it into an explicit composition
of its stages. -/
theorem validateKeyword_eq (netS : SkillsNet) (netO : OccupationsNet)
    (st : ESCOClientState) (now : Nat) (keyword : JSStr) (hwf : validationWF st) :
    validateKeyword netS netO st now keyword =
      (let normalizedKeyword := jsToLower (jsTrim keyword)
       let cacheKey := str "validation_" ++ normalizedKeyword
       let vc := (getValidationFromCache st.validationCache cacheKey now).2
       let st1 : ESCOClientState := { st with validationCache := vc }
       let s := searchSkills netS st1 now normalizedKeyword 3 (str "en")
       let o := searchOccupations netO s.2.1 now normalizedKeyword 3 (str "en")
       let best := occupationsBestLoop normalizedKeyword o.1
         (skillsBestLoop normalizedKeyword s.1 (none, JSNum.ofNat 0, str "hardSkills"))
       let suggestions := generateSuggestions s.1 o.1 normalizedKeyword
       let result : ESCOValidatedKeyword :=
         { keyword := keyword
           isValidated := JSNum.ltb ⟨7, 10, by decide⟩ best.2.1
           escoMatch := best.1
           confidence := best.2.1
           category := best.2.2
           suggestions := suggestions.take 3 }
       (result,
        { o.2.1 with validationCache :=
            setValidationCache o.2.1.validationCache cacheKey result now },
        s.2.2 ++ o.2.2)) := by
  have hv0 := getValidationFromCache_wf st.validationCache
    (str "validation_" ++ jsToLower (jsTrim keyword)) now hwf
  rcases hv : getValidationFromCache st.validationCache
      (str "validation_" ++ jsToLower (jsTrim keyword)) now with ⟨fst, vc⟩
  rw [hv] at hv0
  simp only at hv0
  subst hv0
  simp only [validateKeyword, hv]

end ATS

namespace ATS

theorem getFromCache_fst_none {α : Type} {cache : List (JSStr × SearchCacheEntry α)}
    {key : JSStr} {now : Nat} (h : jsMapGet cache key = none) :
    getFromCache cache key now = (none, jsMapDelete cache key) := by
  unfold getFromCache
  rw [h]

/-- With a search-cache miss and a failing network, a search returns no
results (and issues exactly one request). -/
theorem searchSkills_miss_fail (net : SkillsNet) (st : ESCOClientState) (now : Nat)
    (q : JSStr) (lim : Nat) (lang : JSStr)
    (hmiss : jsMapGet st.cacheSkills (skillsCacheKey q lim lang) = none)
    (hnet : net q lim lang = none) :
    (searchSkills net st now q lim lang).1 = [] := by
  simp only [searchSkills]
  rw [getFromCache_fst_none hmiss]
  simp only [hnet]

theorem searchOccupations_miss_fail (net : OccupationsNet) (st : ESCOClientState)
    (now : Nat) (q : JSStr) (lim : Nat) (lang : JSStr)
    (hmiss : jsMapGet st.cacheOccupations (occupationsCacheKey q lim lang) = none)
    (hnet : net q lim lang = none) :
    (searchOccupations net st now q lim lang).1 = [] := by
  simp only [searchOccupations]
  rw [getFromCache_fst_none hmiss]
  simp only [hnet]

/-- Under a well-formed validation cache, the record `validateKeyword`
returns carries the raw keyword it was called with. -/
theorem validateKeyword_keyword (netS : SkillsNet) (netO : OccupationsNet)
    (st : ESCOClientState) (now : Nat) (keyword : JSStr) (hwf : validationWF st) :
    (validateKeyword netS netO st now keyword).1.keyword = keyword := by
  rw [validateKeyword_eq netS netO st now keyword hwf]

/-- `validateKeyword` preserves well-formedness of the validation cache
(assuming the clock reads nonzero, as `Date.now()` does). -/
theorem validateKeyword_wf (netS : SkillsNet) (netO : OccupationsNet)
    (st : ESCOClientState) (now : Nat) (keyword : JSStr) (hwf : validationWF st)
    (hnow : now ≠ 0) :
    validationWF (validateKeyword netS netO st now keyword).2.1 := by
  rw [validateKeyword_eq netS netO st now keyword hwf]
  intro e he
  simp only at he
  rcases mem_jsMapSet he with rfl | hin
  · exact hnow
  · rw [(searchOccupations_other_caches netO _ now
      (jsToLower (jsTrim keyword)) 3 (str "en")).2] at hin
    rw [(searchSkills_other_caches netS _ now
      (jsToLower (jsTrim keyword)) 3 (str "en")).2] at hin
    exact hwf e (mem_getValidationFromCache_snd hin)

/-- `validateKeyword` preserves the absence of a term's search-cache keys,
provided the network fails for that term's normalized query. -/
theorem validateKeyword_preserves_inv (netS : SkillsNet) (netO : OccupationsNet)
    (st : ESCOClientState) (now : Nat) (keyword k : JSStr) (hwf : validationWF st)
    (hinv : searchMissInv k st)
    (hnetS : netS (jsToLower (jsTrim k)) 3 (str "en") = none)
    (hnetO : netO (jsToLower (jsTrim k)) 3 (str "en") = none) :
    searchMissInv k (validateKeyword netS netO st now keyword).2.1 := by
  rw [validateKeyword_eq netS netO st now keyword hwf]
  simp only [searchMissInv]
  constructor
  · rw [(searchOccupations_other_caches netO _ now
      (jsToLower (jsTrim keyword)) 3 (str "en")).1]
    apply searchSkills_preserves_none
    · exact hinv.1
    · intro hk
      have : jsToLower (jsTrim keyword) = jsToLower (jsTrim k) := skillsCacheKey_inj hk.symm
      rw [this]
      exact hnetS
  · apply searchOccupations_preserves_none
    · rw [(searchSkills_other_caches netS _ now
        (jsToLower (jsTrim keyword)) 3 (str "en")).1]
      exact hinv.2
    · intro hk
      have : jsToLower (jsTrim keyword) = jsToLower (jsTrim k) := occupationsCacheKey_inj hk.symm
      rw [this]
      exact hnetO

/-- When the network fails for a term's normalized query and its search
caches are cold, `validateKeyword` leaves the term unvalidated: confidence
0, no match, `isValidated = false` (and an empty suggestion list). -/
theorem validateKeyword_failing (netS : SkillsNet) (netO : OccupationsNet)
    (st : ESCOClientState) (now : Nat) (keyword k : JSStr) (hwf : validationWF st)
    (hinv : searchMissInv k st)
    (hnetS : netS (jsToLower (jsTrim k)) 3 (str "en") = none)
    (hnetO : netO (jsToLower (jsTrim k)) 3 (str "en") = none)
    (hkw : jsToLower (jsTrim keyword) = jsToLower (jsTrim k)) :
    (validateKeyword netS netO st now keyword).1.isValidated = false ∧
    (validateKeyword netS netO st now keyword).1.confidence = JSNum.ofNat 0 ∧
    (validateKeyword netS netO st now keyword).1.escoMatch = none ∧
    (validateKeyword netS netO st now keyword).1.suggestions = [] := by
  rw [validateKeyword_eq netS netO st now keyword hwf]
  have hs : (searchSkills netS
      { st with validationCache :=
          (getValidationFromCache st.validationCache
            (str "validation_" ++ jsToLower (jsTrim keyword)) now).2 } now
      (jsToLower (jsTrim keyword)) 3 (str "en")).1 = [] := by
    apply searchSkills_miss_fail
    · rw [hkw]
      exact hinv.1
    · rw [hkw]
      exact hnetS
  have ho : (searchOccupations netO (searchSkills netS
      { st with validationCache :=
          (getValidationFromCache st.validationCache
            (str "validation_" ++ jsToLower (jsTrim keyword)) now).2 } now
      (jsToLower (jsTrim keyword)) 3 (str "en")).2.1 now
      (jsToLower (jsTrim keyword)) 3 (str "en")).1 = [] := by
    apply searchOccupations_miss_fail
    · rw [(searchSkills_other_caches netS _ now (jsToLower (jsTrim keyword)) 3 (str "en")).1,
        hkw]
      exact hinv.2
    · rw [hkw]
      exact hnetO
  simp only [hs, ho, occupationsBestLoop, skillsBestLoop, List.foldl_nil,
    generateSuggestions, List.take_nil]
  exact ⟨by decide, by simp, by simp, by simp⟩

end ATS

namespace ATS

/-- `validateKeywords` as a fold with explicit projections (definitional
repackaging of the pattern-matching `let`). -/
theorem validateKeywords_eq_foldl (netS : SkillsNet) (netO : OccupationsNet)
    (st : ESCOClientState) (now : Nat) (keywords : List JSStr) :
    validateKeywords netS netO st now keywords =
      keywords.foldl (fun a keyword =>
        (a.1 ++ [(validateKeyword netS netO a.2.1 now keyword).1],
         (validateKeyword netS netO a.2.1 now keyword).2.1,
         a.2.2 ++ (validateKeyword netS netO a.2.1 now keyword).2.2)) ([], st, []) := rfl

/-- Induction workhorse for the batch: the produced records carry the input
keywords in order, and cache well-formedness is preserved. -/
theorem validateKeywords_go (netS : SkillsNet) (netO : OccupationsNet) (now : Nat)
    (hnow : now ≠ 0) :
    ∀ (ks : List JSStr) (acc : List ESCOValidatedKeyword) (st : ESCOClientState)
      (reqs : List NetRequest), validationWF st →
      ((ks.foldl (fun a keyword =>
          (a.1 ++ [(validateKeyword netS netO a.2.1 now keyword).1],
           (validateKeyword netS netO a.2.1 now keyword).2.1,
           a.2.2 ++ (validateKeyword netS netO a.2.1 now keyword).2.2))
          (acc, st, reqs)).1.map (·.keyword) = acc.map (·.keyword) ++ ks) ∧
      validationWF ((ks.foldl (fun a keyword =>
          (a.1 ++ [(validateKeyword netS netO a.2.1 now keyword).1],
           (validateKeyword netS netO a.2.1 now keyword).2.1,
           a.2.2 ++ (validateKeyword netS netO a.2.1 now keyword).2.2))
          (acc, st, reqs)).2.1) := by
  intro ks
  induction ks with
  | nil =>
      intro acc st reqs hwf
      exact ⟨by simp, hwf⟩
  | cons k ks ih =>
      intro acc st reqs hwf
      rw [List.foldl_cons]
      have hwf' := validateKeyword_wf netS netO st now k hwf hnow
      obtain ⟨h1, h2⟩ := ih (acc ++ [(validateKeyword netS netO st now k).1])
        (validateKeyword netS netO st now k).2.1
        (reqs ++ (validateKeyword netS netO st now k).2.2) hwf'
      refine ⟨?_, h2⟩
      rw [h1]
      simp [validateKeyword_keyword netS netO st now k hwf]

/-- Induction workhorse for the failing term: any produced record whose
keyword normalizes like the failing term `k` is left unvalidated. -/
theorem validateKeywords_go_failing (netS : SkillsNet) (netO : OccupationsNet)
    (now : Nat) (hnow : now ≠ 0) (k : JSStr)
    (hnetS : netS (jsToLower (jsTrim k)) 3 (str "en") = none)
    (hnetO : netO (jsToLower (jsTrim k)) 3 (str "en") = none) :
    ∀ (ks : List JSStr) (acc : List ESCOValidatedKeyword) (st : ESCOClientState)
      (reqs : List NetRequest), validationWF st → searchMissInv k st →
      (∀ r ∈ acc, jsToLower (jsTrim r.keyword) = jsToLower (jsTrim k) →
        r.isValidated = false ∧ r.confidence = JSNum.ofNat 0 ∧ r.escoMatch = none) →
      ∀ r ∈ (ks.foldl (fun a keyword =>
          (a.1 ++ [(validateKeyword netS netO a.2.1 now keyword).1],
           (validateKeyword netS netO a.2.1 now keyword).2.1,
           a.2.2 ++ (validateKeyword netS netO a.2.1 now keyword).2.2))
          (acc, st, reqs)).1,
        jsToLower (jsTrim r.keyword) = jsToLower (jsTrim k) →
        r.isValidated = false ∧ r.confidence = JSNum.ofNat 0 ∧ r.escoMatch = none := by
  intro ks
  induction ks with
  | nil =>
      intro acc st reqs _ _ hacc
      simpa using hacc
  | cons k' ks ih =>
      intro acc st reqs hwf hinv hacc
      rw [List.foldl_cons]
      refine ih (acc ++ [(validateKeyword netS netO st now k').1])
        (validateKeyword netS netO st now k').2.1
        (reqs ++ (validateKeyword netS netO st now k').2.2)
        (validateKeyword_wf netS netO st now k' hwf hnow)
        (validateKeyword_preserves_inv netS netO st now k' k hwf hinv hnetS hnetO) ?_
      intro r hr hnorm
      rcases List.mem_append.mp hr with hr | hr
      · exact hacc r hr hnorm
      · have hrk : r = (validateKeyword netS netO st now k').1 := by simpa using hr
        subst hrk
        rw [validateKeyword_keyword netS netO st now k' hwf] at hnorm
        obtain ⟨ha, hb, hc, _⟩ :=
          validateKeyword_failing netS netO st now k' k hwf hinv hnetS hnetO hnorm
        exact ⟨ha, hb, hc⟩

end ATS

namespace ATS

/-! ### Extractor pipeline membership lemmas (for C2) -/

theorem mem_mergeCompoundStep {b : List JSStr × List JSStr} {cw : JSStr × List JSStr}
    {x : JSStr} (hx : x ∈ (mergeCompoundStep b cw).1) : x ∈ b.1 ∨ x = cw.1 := by
  simp only [mergeCompoundStep] at hx
  split at hx
  · rcases List.mem_append.mp hx with hx | hx
    · left
      revert hx
      have : ∀ y ∈ ((cw.2.map jsToLower).foldl (fun s part =>
          match s.2.findIdx? (fun q => q == part) with
          | some index => (s.1.eraseIdx index, s.2.eraseIdx index)
          | none => s) b).1, y ∈ b.1 := by
        refine List.foldlRecOn
          (motive := fun (s : List JSStr × List JSStr) => ∀ y ∈ s.1, y ∈ b.1) _ _ b
          (fun y hy => hy) ?_
        intro s hs part _ y hy
        rcases hidx : s.2.findIdx? (fun q => q == part) with _ | i
        · rw [hidx] at hy
          exact hs y hy
        · rw [hidx] at hy
          exact hs y ((List.eraseIdx_sublist s.1 i).subset hy)
      exact this x
    · right
      simpa using hx
  · exact Or.inl hx

theorem mem_mergeCompoundWords {keywords : List JSStr} {t : JSStr}
    (ht : t ∈ mergeCompoundWords keywords) :
    t ∈ keywords ∨ t ∈ COMPOUND_WORDS.map (·.1) := by
  unfold mergeCompoundWords at ht
  revert ht
  have : ∀ y ∈ (COMPOUND_WORDS.foldl mergeCompoundStep
      (keywords, keywords.map jsToLower)).1,
      y ∈ keywords ∨ y ∈ COMPOUND_WORDS.map (·.1) := by
    refine List.foldlRecOn
      (motive := fun (s : List JSStr × List JSStr) =>
        ∀ y ∈ s.1, y ∈ keywords ∨ y ∈ COMPOUND_WORDS.map (·.1))
      _ _ (keywords, keywords.map jsToLower) (fun y hy => Or.inl hy) ?_
    intro s hs cw hcw y hy
    rcases mem_mergeCompoundStep hy with hy | rfl
    · exact hs y hy
    · exact Or.inr (List.mem_map_of_mem _ hcw)
  exact this t

theorem jsMapGet_mem_values {α : Type} {m : List (JSStr × α)} {k : JSStr} {v : α}
    (h : jsMapGet m k = some v) : v ∈ m.map (·.2) := by
  unfold jsMapGet at h
  rcases hf : List.find? (fun q => q.1 == k) m with _ | p
  · rw [hf] at h
    cases h
  · rw [hf] at h
    simp only [Option.map_some'] at h
    cases h
    exact List.mem_map_of_mem _ (List.mem_of_find?_eq_some hf)

theorem isValidKeyword_no_invalid_pattern {s : JSStr} (h : isValidKeyword s = true) :
    ∀ p ∈ INVALID_PATTERNS, p (jsToLower (jsTrim s)) = false := by
  intro p hp
  by_contra hc
  have hc' : p (jsToLower (jsTrim s)) = true := by
    rcases hx : p (jsToLower (jsTrim s)) with _ | _
    · exact absurd hx hc
    · rfl
  have hany : INVALID_PATTERNS.any (fun q => q (jsToLower (jsTrim s))) = true :=
    List.any_eq_true.mpr ⟨p, hp, hc'⟩
  unfold isValidKeyword at h
  rw [if_pos hany] at h
  cases h

/-- The canonical spellings in `TECH_STANDARDIZATION` are never pure digits,
date-like, extractor stop-words or single letters. -/
theorem techValues_clean : ∀ v ∈ TECH_STANDARDIZATION.map (·.2),
    patPureDigits (jsToLower (jsTrim v)) = false ∧
    patDate (jsToLower (jsTrim v)) = false ∧
    stopWordsExtractor.contains (jsToLower (jsTrim v)) = false ∧
    patSingleLetter (jsToLower (jsTrim v)) = false := by decide

/-- The compound keys of `COMPOUND_WORDS` are never pure digits, date-like,
extractor stop-words or single letters. -/
theorem compoundKeys_clean : ∀ v ∈ COMPOUND_WORDS.map (·.1),
    patPureDigits (jsToLower (jsTrim v)) = false ∧
    patDate (jsToLower (jsTrim v)) = false ∧
    stopWordsExtractor.contains (jsToLower (jsTrim v)) = false ∧
    patSingleLetter (jsToLower (jsTrim v)) = false := by decide

/-! ### Advanced-categorizer lemma (for C3) -/

theorem categorizeWithConfidence_go (fbm : JSStr → Option (Cat6 × JSNum × JSStr))
    (k : JSStr) (hfbm : fbm k = none) (hinfer : inferCategory k = none) :
    ∀ (ks : List JSStr) (st : ExtractedKeywords6 × List KeywordMatch6 × List JSStr),
      (k ∈ st.2.2 ∨ k ∈ ks) →
      k ∈ (ks.foldl (categorizeWithConfidenceStep fbm) st).2.2 := by
  intro ks
  induction ks with
  | nil =>
      intro st hk
      rcases hk with hk | hk
      · simpa using hk
      · cases hk
  | cons a ks ih =>
      intro st hk
      rw [List.foldl_cons]
      have hmono : ∀ st' : ExtractedKeywords6 × List KeywordMatch6 × List JSStr,
          ∀ x ∈ st'.2.2, x ∈ (categorizeWithConfidenceStep fbm st' a).2.2 := by
        intro st' x hx
        unfold categorizeWithConfidenceStep
        rcases fbm a with _ | bm
        · rcases inferCategory a with _ | c
          · exact List.mem_append_left _ hx
          · exact hx
        · exact hx
      rcases hk with hk | hk
      · exact ih _ (Or.inl (hmono st k hk))
      · rcases List.mem_cons.mp hk with rfl | hk
        · refine ih _ (Or.inl ?_)
          unfold categorizeWithConfidenceStep
          rw [hfbm, hinfer]
          exact List.mem_append_right _ (List.mem_singleton.mpr rfl)
        · exact ih _ (Or.inr hk)

/-! ### Merge lemmas (for C6 and C7) -/

theorem mergeOne_unvalidated {τ : JSNum} {enhanced : ExtractedKeywords}
    {r : ESCOValidatedKeyword} (h : r.isValidated = false) :
    mergeOne τ enhanced r = some enhanced := by
  unfold mergeOne
  rw [h]
  simp

theorem mergeESCOResults_unvalidated (basic : ExtractedKeywords)
    (rs : List ESCOValidatedKeyword) (τ : JSNum)
    (h : ∀ r ∈ rs, r.isValidated = false) :
    mergeESCOResults basic rs τ = some (dedupSortEK basic) := by
  unfold mergeESCOResults
  have hfold : rs.foldlM (mergeOne τ) basic = some basic := by
    induction rs with
    | nil => rfl
    | cons r rs ih =>
        rw [List.foldlM_cons, mergeOne_unvalidated (h r (List.mem_cons_self r rs))]
        exact ih (fun r' hr' => h r' (List.mem_cons_of_mem r hr'))
  rw [hfold]
  rfl

theorem dedupSortEK_nodup (r : ExtractedKeywords) :
    (dedupSortEK r).hardSkills.Nodup ∧ (dedupSortEK r).softSkills.Nodup ∧
    (dedupSortEK r).jobTitles.Nodup ∧ (dedupSortEK r).certifications.Nodup ∧
    (dedupSortEK r).tools.Nodup :=
  ⟨nodup_jsSortStrings_jsSetDedup _, nodup_jsSortStrings_jsSetDedup _,
   nodup_jsSortStrings_jsSetDedup _, nodup_jsSortStrings_jsSetDedup _,
   nodup_jsSortStrings_jsSetDedup _⟩

/-! ### TF-IDF lookup lemma (for C8) -/

theorem jsMapGet_foldl_set {α : Type} (f : JSStr → α) (k : JSStr) :
    ∀ (ks : List JSStr) (m : List (JSStr × α)),
      jsMapGet (ks.foldl (fun w kw => jsMapSet w kw (f kw)) m) k =
        if k ∈ ks then some (f k) else jsMapGet m k := by
  intro ks
  induction ks with
  | nil => intro m; simp
  | cons kw ks ih =>
      intro m
      rw [List.foldl_cons, ih]
      by_cases hk : k ∈ ks
      · simp [hk]
      · by_cases hkw : k = kw
        · subst hkw
          simp [hk, jsMapGet_jsMapSet_self]
        · simp [hk, hkw, jsMapGet_jsMapSet_ne _ _ _ _ hkw]

end ATS

namespace ATS

/-- The record built by `validateKeyword` sets `isValidated` by comparing
its own confidence against the hard-coded literal `0.7`. -/
theorem validateKeyword_isValidated (netS : SkillsNet) (netO : OccupationsNet)
    (st : ESCOClientState) (now : Nat) (keyword : JSStr) (hwf : validationWF st) :
    (validateKeyword netS netO st now keyword).1.isValidated =
      JSNum.ltb ⟨7, 10, by decide⟩ (validateKeyword netS netO st now keyword).1.confidence := by
  rw [validateKeyword_eq netS netO st now keyword hwf]

/-! ## Claim theorems -/

/-- **C1** (code bug, counterexample run): the claim says a second
validation of the same normalized term within the 1 h validation-cache TTL
returns a record identical to the first without a network search, and a
validation after the TTL expires issues a fresh search.  On the code:
`setValidationCache` stores `{ ...data, timestamp }` (no `data` property)
while `getValidationFromCache` returns `cacheEntry.data`, so a within-TTL
hit yields `undefined` and the record is recomputed — validating `"Java"`
at t=1 s and `"JAVA"` at t=61 s produces records that differ in their
`keyword` field (not identical, first conjunct of the claim false); and at
t=2 h (validation TTL expired) no network request is issued at all because
both searches are served by the 24 h search-result cache (second conjunct
false). -/
theorem C1_validation_cache_bug :
    c1run1.1.keyword = str "Java" ∧
    c1run1.2.2 = [⟨str "skill", str "java", 3⟩, ⟨str "occupation", str "java", 3⟩] ∧
    c1run2.1.keyword = str "JAVA" ∧
    c1run2.1.keyword ≠ c1run1.1.keyword ∧
    c1run2.2.2 = [] ∧
    c1run3.2.2 = [] := by
  decide

/-- **C2** (counterexample): an email address survives the raw-extraction
noise filter — `INVALID_PATTERNS` has no email pattern, so
`john@example.com` appears verbatim in the candidate output. -/
theorem C2_counterexample :
    str "john@example.com" ∈ extractRawKeywords [str "john@example.com"] ∧
    isEmailAddress (jsToLower (jsTrim (str "john@example.com"))) = true := by
  decide

/-- **C2** (amended): for every raw token list, the candidate list produced
by the extraction pipeline contains no pure-digit term, no date-like term,
no extractor stop-word and no single letter (each tested as the code tests
them, on the lowercased trimmed term).  Email addresses, however, are *not*
filtered here (see the counterexample): they are only screened later by the
priority ranker's `isHighQualityKeyword`. -/
theorem C2_no_noise_terms :
    ∀ (rawKeywords : List JSStr) (t : JSStr), t ∈ extractRawKeywords rawKeywords →
      patPureDigits (jsToLower (jsTrim t)) = false ∧
      patDate (jsToLower (jsTrim t)) = false ∧
      stopWordsExtractor.contains (jsToLower (jsTrim t)) = false ∧
      patSingleLetter (jsToLower (jsTrim t)) = false := by
  intro raw t ht
  simp only [extractRawKeywords] at ht
  replace ht := mem_of_mem_jsSetDedup (mem_of_mem_jsSortStrings ht)
  rcases mem_mergeCompoundWords ht with ht | ht
  · simp only [standardizeTechNames] at ht
    rcases List.mem_map.mp ht with ⟨s, hs, rfl⟩
    have hvalid := (List.mem_filter.mp hs).2
    rcases hm : jsMapGet TECH_STANDARDIZATION (jsToLower s) with _ | v
    · simp only [hm, Option.getD_none]
      have hall := isValidKeyword_no_invalid_pattern hvalid
      have m1 : patPureDigits ∈ INVALID_PATTERNS := by
        unfold INVALID_PATTERNS
        exact List.Mem.head _
      have m2 : patDate ∈ INVALID_PATTERNS := by
        unfold INVALID_PATTERNS
        exact List.Mem.tail _ (List.Mem.head _)
      have m4 : patSingleLetter ∈ INVALID_PATTERNS := by
        unfold INVALID_PATTERNS
        exact List.Mem.tail _ (List.Mem.tail _ (List.Mem.tail _ (List.Mem.head _)))
      have m5 : (fun q => stopWordsExtractor.contains q) ∈ INVALID_PATTERNS := by
        unfold INVALID_PATTERNS
        exact List.Mem.tail _ (List.Mem.tail _ (List.Mem.tail _ (List.Mem.tail _
          (List.Mem.head _))))
      exact ⟨hall _ m1, hall _ m2, hall _ m5, hall _ m4⟩
    · simp only [hm, Option.getD_some]
      exact techValues_clean v (jsMapGet_mem_values hm)
  · exact compoundKeys_clean t ht

/-- **C2** witness: `react` standardizes to `React`, which is in the output
and satisfies the four noise-freedom conclusions. -/
theorem C2_witness :
    str "React" ∈ extractRawKeywords [str "react"] ∧
    (patPureDigits (jsToLower (jsTrim (str "React"))) = false ∧
     patDate (jsToLower (jsTrim (str "React"))) = false ∧
     stopWordsExtractor.contains (jsToLower (jsTrim (str "React"))) = false ∧
     patSingleLetter (jsToLower (jsTrim (str "React"))) = false) :=
  ⟨by decide, C2_no_noise_terms [str "react"] (str "React") (by decide)⟩

/-- **C3** (counterexample): the term `zzzz` matches no dictionary category
and no inference pattern, yet `categorizeKeywords` returns a record in
which it appears nowhere — the five-key result has no `uncategorized`
field, so the term is silently dropped rather than surfaced separately. -/
theorem C3_counterexample :
    categoryMatches (str "zzzz") hardSkillsDict = false ∧
    categoryMatches (str "zzzz") softSkillsDict = false ∧
    categoryMatches (str "zzzz") jobTitlesDict = false ∧
    categoryMatches (str "zzzz") certificationsDict = false ∧
    categoryMatches (str "zzzz") toolsDict = false ∧
    isLikelyHardSkill (str "zzzz") = false ∧
    isLikelySoftSkill (str "zzzz") = false ∧
    isLikelyJobTitle (str "zzzz") = false ∧
    categorizeKeywords [str "zzzz"] = emptyEK := by
  decide

/-- **C3** (amended): uncategorized terms are reported separately only by
the alternative `AdvancedKeywordCategorizer.categorizeWithConfidence`: any
keyword with no fuzzy-database match and no inferred category is appended
to its `uncategorized` output list (the pipeline's `categorizeKeywords`,
per the counterexample, silently drops such terms instead). -/
theorem C3_uncategorized_reported :
    ∀ (fbm : JSStr → Option (Cat6 × JSNum × JSStr)) (keywords : List JSStr)
      (k : JSStr), k ∈ keywords → fbm k = none → inferCategory k = none →
      k ∈ (categorizeWithConfidence fbm keywords).2.2 := by
  intro fbm keywords k hk hfbm hinfer
  exact categorizeWithConfidence_go fbm k hfbm hinfer keywords (emptyEK6, [], [])
    (Or.inr hk)

/-- **C3** witness: with an oracle that never matches, `zzzz` lands in the
`uncategorized` list. -/
theorem C3_witness :
    str "zzzz" ∈ [str "zzzz"] ∧
    inferCategory (str "zzzz") = none ∧
    str "zzzz" ∈ (categorizeWithConfidence
      (fun _ => (none : Option (Cat6 × JSNum × JSStr))) [str "zzzz"]).2.2 :=
  ⟨by decide, by decide,
   C3_uncategorized_reported (fun _ => none) [str "zzzz"] (str "zzzz")
     (by decide) rfl (by decide)⟩

/-- **C4** (code bug, failing input): validating the term `education`
against a `knowledge`-type ESCO skill titled `education` assigns the
category string `"education"`, which is **not** one of the five keys of
`ExtractedKeywords` in `types.ts` (the declared type of
`ESCOValidatedKeyword.category`); downstream, `mergeESCOResults` then
dereferences the missing key and throws (modelled as `none`). -/
theorem C4_education_category_bug :
    categorizeESCOSkill educationSkill = str "education" ∧
    c4run.1.category = str "education" ∧
    c4run.1.isValidated = true ∧
    fiveCategoryKeys.contains c4run.1.category = false ∧
    mergeESCOResults emptyEK [c4run.1] ⟨7, 10, by decide⟩ = none := by
  decide

/-- **C5** (counterexample): the caller-supplied threshold does not govern
`isValidated`.  With best-match confidence 0.8 the record says
`isValidated = true` even though 0.8 does not exceed a caller threshold of
0.9 — falsifying the claim's "for every caller-supplied threshold t"
biconditional at t = 0.9. -/
theorem C5_counterexample :
    c5run.1.confidence.num = 8 ∧ c5run.1.confidence.den = 10 ∧
    c5run.1.isValidated = true ∧
    JSNum.ltb ⟨9, 10, by decide⟩ c5run.1.confidence = false := by
  decide

/-- **C5** (amended): a term's `ValidationRecord` has `isValidated = true`
iff its best-match confidence exceeds the *fixed* constant 0.7 baked into
`validateKeyword`; the caller-supplied threshold instead gates only which
validated results `mergeESCOResults` adds to the keyword sets. -/
theorem C5_isValidated_fixed_threshold :
    ∀ (netS : SkillsNet) (netO : OccupationsNet) (st : ESCOClientState) (now : Nat)
      (keyword : JSStr), validationWF st →
      ((validateKeyword netS netO st now keyword).1.isValidated = true ↔
        (7 : ℚ) / 10 < (validateKeyword netS netO st now keyword).1.confidence.val) := by
  intro netS netO st now keyword hwf
  rw [validateKeyword_isValidated netS netO st now keyword hwf, JSNum.ltb_iff_val]
  have h710 : (⟨7, 10, by decide⟩ : JSNum).val = (7 : ℚ) / 10 := by
    norm_num [JSNum.val]
  rw [h710]

/-- **C5** witness: at a concrete input (all-failing network, empty cache)
the biconditional holds with confidence 0. -/
theorem C5_witness :
    validationWF emptyClientState ∧
    ((validateKeyword (fun _ _ _ => none) (fun _ _ _ => none) emptyClientState 1
        (str "java")).1.isValidated = true ↔
      (7 : ℚ) / 10 < (validateKeyword (fun _ _ _ => none) (fun _ _ _ => none)
        emptyClientState 1 (str "java")).1.confidence.val) :=
  ⟨by intro e he; exact absurd he (List.not_mem_nil e),
   C5_isValidated_fixed_threshold (fun _ _ _ => none) (fun _ _ _ => none)
     emptyClientState 1 (str "java")
     (by intro e he; exact absurd he (List.not_mem_nil e))⟩

end ATS

namespace ATS

/-- **C6**: network-failure tolerance.  (1) For any batch, the returned
records line up one-to-one with the input keywords — no failure aborts the
batch; (2) a term whose searches all fail (cold cache, failing network for
its normalized query) yields an unvalidated record with confidence 0 and no
match, while the rest of the batch is still processed; (3) if the whole
validation stage throws, `extractAndValidate` falls back to the basic
(unvalidated) categorization instead of failing; and (4) merging a fully
unvalidated result set returns the basic categorization (deduplicated and
sorted), so a systemic reference outage still produces a result. -/
theorem C6_failure_tolerance :
    (∀ (netS : SkillsNet) (netO : OccupationsNet) (st : ESCOClientState) (now : Nat)
       (keywords : List JSStr) (k : JSStr), validationWF st → now ≠ 0 →
       ((validateKeywords netS netO st now keywords).1.map (·.keyword) = keywords ∧
        (searchMissInv k st →
         netS (jsToLower (jsTrim k)) 3 (str "en") = none →
         netO (jsToLower (jsTrim k)) 3 (str "en") = none →
         ∀ r ∈ (validateKeywords netS netO st now keywords).1,
           jsToLower (jsTrim r.keyword) = jsToLower (jsTrim k) →
           r.isValidated = false ∧ r.confidence = JSNum.ofNat 0 ∧
             r.escoMatch = none))) ∧
    (∀ (basic : ExtractedKeywords) (τ : JSNum),
       extractAndValidateResult basic (Except.error ()) τ = (basic, [])) ∧
    (∀ (basic : ExtractedKeywords) (rs : List ESCOValidatedKeyword) (τ : JSNum),
       (∀ r ∈ rs, r.isValidated = false) →
       mergeESCOResults basic rs τ = some (dedupSortEK basic)) := by
  refine ⟨?_, fun basic τ => rfl, mergeESCOResults_unvalidated⟩
  intro netS netO st now keywords k hwf hnow
  constructor
  · rw [validateKeywords_eq_foldl]
    simpa using (validateKeywords_go netS netO now hnow keywords [] st [] hwf).1
  · intro hinv hnS hnO r hr hnorm
    rw [validateKeywords_eq_foldl] at hr
    refine validateKeywords_go_failing netS netO now hnow k hnS hnO keywords [] st []
      hwf hinv ?_ r hr hnorm
    intro r' hr'
    exact absurd hr' (List.not_mem_nil r')

/-- **C6** witness: with an all-failing network, an empty cache and the
batch `[java]`, the records line up with the keywords and the `java` record
is unvalidated; the error fallback returns the basic keywords. -/
theorem C6_witness :
    ((validateKeywords (fun _ _ _ => none) (fun _ _ _ => none) emptyClientState 1
        [str "java"]).1.map (·.keyword) = [str "java"] ∧
     (∀ r ∈ (validateKeywords (fun _ _ _ => none) (fun _ _ _ => none) emptyClientState
         1 [str "java"]).1,
       jsToLower (jsTrim r.keyword) = jsToLower (jsTrim (str "java")) →
       r.isValidated = false ∧ r.confidence = JSNum.ofNat 0 ∧ r.escoMatch = none)) ∧
    extractAndValidateResult emptyEK (Except.error ()) ⟨7, 10, by decide⟩ =
      (emptyEK, []) := by
  have h := C6_failure_tolerance.1 (fun _ _ _ => none) (fun _ _ _ => none)
    emptyClientState 1 [str "java"] (str "java")
    (by intro e he; exact absurd he (List.not_mem_nil e)) (by decide)
  exact ⟨⟨h.1, h.2 ⟨rfl, rfl⟩ rfl rfl⟩,
    C6_failure_tolerance.2.1 emptyEK ⟨7, 10, by decide⟩⟩

/-- **C7** (counterexample): dedup is exact-string, not case-insensitive —
`categorizeKeywords ["Java", "java"]` keeps both case variants of the same
term in `hardSkills`, violating the no-case-fold-duplicates invariant. -/
theorem C7_counterexample :
    (categorizeKeywords [str "Java", str "java"]).hardSkills =
      [str "Java", str "java"] ∧
    jsToLower (str "Java") = jsToLower (str "java") ∧
    str "Java" ≠ str "java" := by
  decide

/-- **C7** (amended): every `CategorySet` produced by `categorizeKeywords`
or by a non-throwing `mergeESCOResults` run has all five categories present
(structurally, by the record type) with no two *exactly equal* terms in any
category (the `new Set` dedup is case-sensitive, so case-fold duplicates
may remain — see the counterexample). -/
theorem C7_exact_dedup :
    (∀ keywords : List JSStr,
      (categorizeKeywords keywords).hardSkills.Nodup ∧
      (categorizeKeywords keywords).softSkills.Nodup ∧
      (categorizeKeywords keywords).jobTitles.Nodup ∧
      (categorizeKeywords keywords).certifications.Nodup ∧
      (categorizeKeywords keywords).tools.Nodup) ∧
    (∀ (basic : ExtractedKeywords) (rs : List ESCOValidatedKeyword) (τ : JSNum)
       (ek : ExtractedKeywords), mergeESCOResults basic rs τ = some ek →
       ek.hardSkills.Nodup ∧ ek.softSkills.Nodup ∧ ek.jobTitles.Nodup ∧
       ek.certifications.Nodup ∧ ek.tools.Nodup) := by
  constructor
  · intro keywords
    exact dedupSortEK_nodup _
  · intro basic rs τ ek hek
    unfold mergeESCOResults at hek
    rcases Option.map_eq_some'.mp hek with ⟨x, _, rfl⟩
    exact dedupSortEK_nodup x

/-- **C7** witness: concrete instances of both parts. -/
theorem C7_witness :
    ((categorizeKeywords [str "Java"]).hardSkills.Nodup ∧
     (categorizeKeywords [str "Java"]).softSkills.Nodup ∧
     (categorizeKeywords [str "Java"]).jobTitles.Nodup ∧
     (categorizeKeywords [str "Java"]).certifications.Nodup ∧
     (categorizeKeywords [str "Java"]).tools.Nodup) ∧
    mergeESCOResults emptyEK [] ⟨7, 10, by decide⟩ = some (dedupSortEK emptyEK) ∧
    ((dedupSortEK emptyEK).hardSkills.Nodup ∧ (dedupSortEK emptyEK).softSkills.Nodup ∧
     (dedupSortEK emptyEK).jobTitles.Nodup ∧
     (dedupSortEK emptyEK).certifications.Nodup ∧
     (dedupSortEK emptyEK).tools.Nodup) :=
  ⟨C7_exact_dedup.1 [str "Java"], by decide,
   C7_exact_dedup.2 emptyEK [] ⟨7, 10, by decide⟩ (dedupSortEK emptyEK) (by decide)⟩

/-- **C8**: over exactly two documents, the importance weight recorded for
a keyword by `calculateTfIdfWeights` is the *maximum* (not the sum) of its
TF-IDF values in the two documents, whenever those values are nonnegative
(as the `natural` library's tf·idf products are). -/
theorem C8_tfidf_max :
    ∀ (tfidf : JSStr → Nat → JSNum) (doc1 doc2 : JSStr) (keywords : List JSStr)
      (k : JSStr), k ∈ keywords → (0 : ℚ) ≤ (tfidf k 0).val →
      ∃ w : JSNum,
        jsMapGet (calculateTfIdfWeights tfidf [doc1, doc2] keywords) k = some w ∧
        w.val = max ((tfidf k 0).val) ((tfidf k 1).val) := by
  intro tfidf d1 d2 ks k hk h0
  have heq : calculateTfIdfWeights tfidf [d1, d2] ks =
      ks.foldl (fun w kw => jsMapSet w kw ((List.range 2).foldl
        (fun mw i => JSNum.jsMax mw (tfidf kw i)) (JSNum.ofNat 0))) [] := rfl
  rw [heq, jsMapGet_foldl_set, if_pos hk]
  refine ⟨_, rfl, ?_⟩
  show ((List.range 2).foldl (fun mw i => JSNum.jsMax mw (tfidf k i))
    (JSNum.ofNat 0)).val = _
  have hr2 : List.range 2 = [0, 1] := rfl
  rw [hr2]
  simp only [List.foldl_cons, List.foldl_nil]
  rw [JSNum.val_jsMax, JSNum.val_jsMax, JSNum.val_ofNat]
  norm_num
  rw [max_eq_right h0]

/-- **C8** witness: a constant nonnegative tf·idf oracle at a concrete
keyword list. -/
theorem C8_witness :
    str "java" ∈ [str "java"] ∧ (0 : ℚ) ≤ ((fun (_ : JSStr) (_ : Nat) =>
      JSNum.ofNat 1) (str "java") 0).val ∧
    ∃ w : JSNum,
      jsMapGet (calculateTfIdfWeights (fun _ _ => JSNum.ofNat 1)
        [str "a", str "b"] [str "java"]) (str "java") = some w ∧
      w.val = max ((JSNum.ofNat 1).val) ((JSNum.ofNat 1).val) :=
  ⟨by decide, by norm_num [JSNum.val, JSNum.ofNat],
   C8_tfidf_max (fun _ _ => JSNum.ofNat 1) (str "a") (str "b") [str "java"]
     (str "java") (by decide) (by norm_num [JSNum.val, JSNum.ofNat])⟩

/-- **C9**: the priority ranker is deterministic — it is a pure function of
its input, whose output is definitionally the top-`maxCount` prefix of the
stable descending sort of the scored clean keywords (first conjunct) — the
sort output is ordered by non-increasing score (second conjunct), and terms
with equal priority scores appear in it exactly in their original filtered
input order (third conjunct: filtering any tie class out of the sorted list
returns it unchanged). -/
theorem C9_deterministic_stable :
    ∀ (keywords : List JSStr) (maxCount : Nat) (s : ℚ),
      prioritizeKeywordsForValidation keywords maxCount =
        ((((scoredKeywords keywords).insertionSort scoreDescRel).take
          maxCount).map (·.1)) ∧
      ((scoredKeywords keywords).insertionSort scoreDescRel).Pairwise
        (fun a b => b.2.val ≤ a.2.val) ∧
      ((scoredKeywords keywords).insertionSort scoreDescRel).filter
          (fun p => p.2.val == s) =
        (scoredKeywords keywords).filter (fun p => p.2.val == s) := by
  intro kws n s
  refine ⟨rfl, ?_, ?_⟩
  · exact (List.sorted_insertionSort scoreDescRel (scoredKeywords kws)).imp
      (fun hab => (JSNum.leb_iff_val _ _).mp hab)
  · apply filter_insertionSort_eq
    intro a b ha hb
    simp only [beq_iff_eq] at ha hb
    unfold scoreDescRel
    rw [JSNum.leb_iff_val, hb, ha]

/-- **C10**: the `SCORE_LEVELS` buckets partition the whole 0–100 score
range — every integer score up to 100 lies in the inclusive `[min, max]`
range of exactly one level. -/
theorem C10_score_levels_partition :
    ∀ s : Nat, s ≤ 100 →
      SCORE_LEVELS.countP (fun l => decide (l.min ≤ s ∧ s ≤ l.max)) = 1 := by
  decide

/-- **C10** witness: the boundary score 85 lies in exactly one bucket. -/
theorem C10_witness :
    SCORE_LEVELS.countP (fun l => decide (l.min ≤ 85 ∧ 85 ≤ l.max)) = 1 :=
  C10_score_levels_partition 85 (by decide)

end ATS
